import Mathlib

/-!
Shallow embedding of the ontology construction and validation engine of the
TiddlerKB server (services `DomainAnalyzer`, `ConceptHierarchy`,
`OntologyManager`, `OntologyValidator`), together with theorems settling the
specification claims about it.

Conventions of the embedding:
* JavaScript `Map` objects are modelled as association lists with `Map.set`
  update-in-place-or-append semantics, which preserves the insertion order
  that `Map` iteration exposes.
* JavaScript numbers are modelled as rationals (`ℚ`); the arithmetic used by
  the engine (sums, products, divisions by clamped positive denominators,
  min/max) is exact on the values the claims mention.
* JavaScript strings are modelled as `List Char` where character-level work
  (tokenizing, regex tests) happens, and as `String` elsewhere.
* Fallible or possibly diverging code is modelled with explicit fuel.
-/

namespace TiddlerKB

/-! ### JavaScript `Map` model (association list, insertion ordered) -/

variable {κ : Type} [DecidableEq κ]

/-- Lookup in a JS `Map`: the first (and, for maps built by `mapSet`, only)
binding for the key. -/
def mapGet (m : List (κ × α)) (k : κ) : Option α :=
  match m with
  | [] => none
  | p :: rest => if p.1 = k then some p.2 else mapGet rest k

/-- JS `Map.set`: replace the binding in place if present, else append. -/
def mapSet (m : List (κ × α)) (k : κ) (v : α) : List (κ × α) :=
  if m.any (fun p => p.1 = k) then
    m.map (fun p => if p.1 = k then (k, v) else p)
  else
    m ++ [(k, v)]

/-- JS `Map.has`. -/
def mapHas (m : List (κ × α)) (k : κ) : Bool :=
  m.any (fun p => p.1 = k)

/-- JS `Map.delete` (value-level effect only). -/
def mapDelete (m : List (κ × α)) (k : κ) : List (κ × α) :=
  m.filter (fun p => ¬ p.1 = k)

/-- JS `Map.values()`, in insertion order. -/
def mapValues (m : List (κ × α)) : List α :=
  m.map (·.2)

/-- JS `Map.keys()`, in insertion order. -/
def mapKeys (m : List (κ × α)) : List κ :=
  m.map (·.1)

/-- JS `new Map(entries)`: later entries with the same key overwrite. -/
def mapOfEntries (l : List (κ × α)) : List (κ × α) :=
  l.foldl (fun m p => mapSet m p.1 p.2) []

/-- JS `Set` add modelled on a list of distinct elements in insertion order. -/
def setAdd (s : List String) (x : String) : List String :=
  if x ∈ s then s else s ++ [x]

/-- JS `Set.delete`. -/
def setDelete (s : List String) (x : String) : List String :=
  s.filter (fun y => ¬ y = x)

/-- JS `new Set(array)`: deduplicate keeping first occurrences. -/
def setOfList (l : List String) : List String :=
  l.foldl setAdd []

/-- Insert `x` into an already sorted list, after every element it does not
strictly precede. -/
def insertBy (before : α → α → Bool) (x : α) : List α → List α
  | [] => [x]
  | y :: ys => if before x y then x :: y :: ys else y :: insertBy before x ys

/-- Stable sort by the strict precedence `before` (insertion sort):
elements the comparator ties keep their original relative order, as the
ECMAScript 2019 `Array.prototype.sort` guarantees. -/
def stableSortBy (before : α → α → Bool) (l : List α) : List α :=
  l.foldl (fun acc x => insertBy before x acc) []

/-! ### JavaScript string helpers -/

/-- JS word character class `\w` = `[A-Za-z0-9_]`. -/
def isWordChar (c : Char) : Bool :=
  (c.isUpper || c.isLower || c.isDigit || c = '_')

/-- JS whitespace class `\s` as used by the engine's inputs. -/
def isWsChar (c : Char) : Bool :=
  c = ' ' || c = '\t' || c = '\n' || c = '\r'

/-- JS `String.prototype.toLowerCase` on the ASCII range the engine uses. -/
def jsToLower (s : String) : String :=
  String.mk (s.data.map Char.toLower)

/-- Character-list prefix test. -/
def startsWithChars : List Char → List Char → Bool
  | _, [] => true
  | [], _ :: _ => false
  | c :: cs, p :: ps => c = p && startsWithChars cs ps

/-- JS `String.prototype.trim`. -/
def jsTrim (s : String) : String :=
  String.mk (((s.data.dropWhile isWsChar).reverse.dropWhile isWsChar).reverse)

/-- JS `String.prototype.substring(0, n)`. -/
def jsTake (s : String) (n : Nat) : String :=
  String.mk (s.data.take n)

/-- First index at which `sub` occurs in `cs`, JS `indexOf` (-1 as `none`). -/
def listIndexOfSub (cs sub : List Char) : Option Nat :=
  (List.range (cs.length + 1)).find? (fun i => startsWithChars (cs.drop i) sub)

/-- JS `String.prototype.includes`: substring containment. -/
def jsIncludes (s sub : String) : Bool :=
  (listIndexOfSub s.data sub.data).isSome

/-- JS `s.indexOf(sub)` as an integer, `-1` when absent. -/
def jsIndexOf (s sub : String) : Int :=
  match listIndexOfSub s.data sub.data with
  | some i => (i : Int)
  | none => -1

/-- Worker for `splitRuns`: `inDelim` records whether the previous
character belonged to a delimiter run (so further delimiters extend the
same run instead of opening new fields). -/
def splitRunsGo (isDelim : Char → Bool) : Bool → List Char → List Char → List (List Char)
  | _, [], cur => [cur.reverse]
  | inDelim, c :: rest, cur =>
    if isDelim c then
      if inDelim then splitRunsGo isDelim true rest cur
      else cur.reverse :: splitRunsGo isDelim true rest []
    else
      splitRunsGo isDelim false rest (c :: cur)

/-- Split on runs of delimiter characters, JS `split(/[delims]+/)` semantics:
a leading delimiter run yields a leading empty field and a trailing run a
trailing empty field. -/
def splitRuns (isDelim : Char → Bool) (cs : List Char) : List (List Char) :=
  splitRunsGo isDelim false cs []

/-- JS `text.split(/[.!?]+/)`. -/
def splitSentenceDelims (s : String) : List String :=
  (splitRuns (fun c => c = '.' || c = '!' || c = '?') s.data).map String.mk

/-- JS `text.split(/\s+/)`. -/
def splitWs (s : String) : List String :=
  (splitRuns isWsChar s.data).map String.mk

/-- JS `replace(/[^\w\s]/g, ' ')`: every character neither word nor
whitespace becomes a space. -/
def replaceNonWordWithSpace (s : String) : String :=
  String.mk (s.data.map (fun c => if isWordChar c || isWsChar c then c else ' '))

/-- JS `replace(/[^\w\s]/g, '')`: drop characters neither word nor
whitespace. -/
def dropNonWord (s : String) : String :=
  String.mk (s.data.filter (fun c => isWordChar c || isWsChar c))

/-- JS `replace(/[^a-z0-9]/g, '_')` after lowercasing: the slug generator
`generateId` of `ConceptHierarchy`. -/
def generateId (name : String) : String :=
  String.mk ((jsToLower name).data.map
    (fun c => if c.isLower || c.isDigit then c else '_'))

/-- JS `str.endsWith(suf)`. -/
def jsEndsWith (s suf : String) : Bool :=
  startsWithChars s.data.reverse suf.data.reverse

/-! ### Semantics of the fixed regular expressions of `DomainAnalyzer`

Every pattern the engine tests is a word-boundary-delimited alternation of
literals, except the `is-a` pattern which also uses `\s+`, an optional
article group and `\s*`.  `\b` holds between two positions iff exactly one
side is a word character (a string edge counts as non-word). -/

/-- Wordness of an optional character; the string edge is non-word. -/
def wordOpt : Option Char → Bool
  | some c => isWordChar c
  | none => false

/-- Test of `\b(alt1|alt2|...)\b` at the current position, given the
wordness of the previous character.  All alternatives start and end with a
word character, so the boundaries reduce to non-wordness of the neighbour
characters. -/
def wordAltsHere (alts : List (List Char)) (prevWord : Bool) (cs : List Char) : Bool :=
  !prevWord &&
    alts.any (fun alt =>
      startsWithChars cs alt && !(wordOpt (cs.drop alt.length).head?))

/-- Scan `\b(alt1|alt2|...)\b` over every position of the string. -/
def wordAltsScan (alts : List (List Char)) (prevWord : Bool) : List Char → Bool
  | [] => wordAltsHere alts prevWord []
  | c :: rest =>
    wordAltsHere alts prevWord (c :: rest) || wordAltsScan alts (isWordChar c) rest

/-- JS `pattern.test(s)` for a word-boundary-delimited literal alternation. -/
def testWordAlts (alts : List String) (s : String) : Bool :=
  wordAltsScan (alts.map String.data) false s.data

/-- All ways of consuming `k` leading whitespace characters (`k` ranges over
0 to the length of the leading whitespace run), paired with whether any
character was consumed.  This realizes the backtracking of `\s+` / `\s*`. -/
def wsSuffixes (cs : List Char) : List (Bool × List Char) :=
  let run := (cs.takeWhile isWsChar).length
  (List.range (run + 1)).map (fun k => (decide (0 < k), cs.drop k))

/-- Continuation `\s*\b` of the `is-a` pattern, given the wordness of the
previous character. -/
def wsStarBoundary (prevWord : Bool) (cs : List Char) : Bool :=
  (wsSuffixes cs).any (fun p =>
    let pw := if p.1 then false else prevWord
    pw ≠ wordOpt p.2.head?)

/-- Continuation `\s+(a|an|the)?\s*\b` of the `is-a` pattern, entered right
after one of the verbs was matched. -/
def isAContinuation (cs : List Char) : Bool :=
  (wsSuffixes cs).any (fun p =>
    p.1 &&
      (wsStarBoundary false p.2 ||
        (["a", "an", "the"].map String.data).any (fun w =>
          startsWithChars p.2 w && wsStarBoundary true (p.2.drop w.length))))

/-- Scan of the `is-a` pattern `\b(is|are|was|were)\s+(a|an|the)?\s*\b`. -/
def isAScan (prevWord : Bool) : List Char → Bool
  | [] => false
  | c :: rest =>
    (!prevWord &&
      (["is", "are", "was", "were"].map String.data).any (fun v =>
        startsWithChars (c :: rest) v && isAContinuation ((c :: rest).drop v.length))) ||
    isAScan (isWordChar c) rest

/-- JS test of the `is-a` relationship pattern. -/
def isAPatternTest (s : String) : Bool :=
  isAScan false s.data

/-! ### Data model (from `types/ontology.ts` and `types/tiddler.ts`) -/

/-- A document: the fields of `Tiddler` the ontology engine reads. -/
structure Tiddler where
  title : String
  text : String
  tags : List String
deriving Repr, DecidableEq

/-- The concept kind union `'entity' | 'process' | 'quality' | 'abstract'`
(field `type` of `ExtractedConcept`). -/
inductive CKind where
  | entity
  | process
  | quality
  | abstract
deriving Repr, DecidableEq

/-- A concept produced by extraction (`ExtractedConcept`). -/
structure ExtractedConcept where
  name : String
  type : CKind
  frequency : Nat
  contexts : List String
  confidence : ℚ
deriving Repr, DecidableEq

/-- A relationship candidate produced by extraction
(`ExtractedRelationship`). -/
structure ExtractedRelationship where
  source : String
  target : String
  type : String
  strength : ℚ
  evidence : List String
  confidence : ℚ
deriving Repr, DecidableEq

/-! ### `DomainAnalyzer` -/

/-- The stop-word table of `DomainAnalyzer`. -/
def stopWords : List String :=
  ["the", "a", "an", "and", "or", "but", "in", "on", "at", "to", "for", "of",
   "with", "by", "is", "are", "was", "were", "be", "been", "being", "have",
   "has", "had", "do", "does", "did", "will", "would", "could", "should",
   "may", "might", "can", "this", "that", "these", "those"]

/-- The per-kind indicator substrings (`conceptTypes`), in source order. -/
def conceptTypeIndicators : List (CKind × List String) :=
  [(.entity, ["person", "organization", "place", "thing", "object", "system",
              "tool", "device"]),
   (.process, ["process", "method", "procedure", "workflow", "algorithm",
               "technique", "approach"]),
   (.quality, ["property", "attribute", "characteristic", "feature",
               "quality", "trait"]),
   (.abstract, ["concept", "idea", "theory", "principle", "rule", "law",
                "pattern"])]

/-- `DomainAnalyzer.tokenize`. -/
def tokenize (text : String) : List String :=
  (splitWs (replaceNonWordWithSpace text)).filter
    (fun w => 2 < w.length && !(stopWords.contains w))

/-- `DomainAnalyzer.splitIntoSentences`: split on `[.!?]+` runs and keep the
fragments whose trimmed length exceeds 10 (the untrimmed fragment is kept). -/
def splitIntoSentences (text : String) : List String :=
  (splitSentenceDelims text).filter (fun s => 10 < (jsTrim s).length)

/-- `DomainAnalyzer.isValidConcept`. -/
def isValidConcept (c : String) : Bool :=
  2 < c.length && !(stopWords.contains c) &&
    (match c.data.head? with
     | some ch => ch.isUpper || ch.isLower
     | none => false) &&
    !(c.data ≠ [] && c.data.all Char.isDigit)

/-- `DomainAnalyzer.isValidPhrase`. -/
def isValidPhrase (p : String) : Bool :=
  let words := splitWs p
  2 ≤ words.length && words.all isValidConcept &&
    !(words.any (fun w => stopWords.contains w))

/-- The sliding 2/3-word windows of `DomainAnalyzer.extractPhrases`, in the
push order of the source loop. -/
def phraseWindows : List String → List String
  | w1 :: w2 :: rest =>
    let two := jsTrim (dropNonWord (w1 ++ " " ++ w2))
    let twoPart := if 5 < two.length && isValidPhrase two then [two] else []
    let threePart :=
      match rest with
      | w3 :: _ =>
        let three := jsTrim (dropNonWord (w1 ++ " " ++ w2 ++ " " ++ w3))
        if 8 < three.length && isValidPhrase three then [three] else []
      | [] => []
    twoPart ++ threePart ++ phraseWindows (w2 :: rest)
  | _ => []

/-- `DomainAnalyzer.extractPhrases`. -/
def extractPhrases (text : String) : List String :=
  (splitIntoSentences text).foldl
    (fun acc s => acc ++ phraseWindows (splitWs s)) []

/-- The check `concept[0] === concept[0].toUpperCase()` of the source.  On
the empty string the source would fault (reading `undefined`); extraction
never applies it to an empty name, and the embedding returns `false` there. -/
def headUpperLike (s : String) : Bool :=
  match s.data.head? with
  | some c => c.toUpper = c
  | none => false

/-- `DomainAnalyzer.inferConceptType`. -/
def inferConceptType (concept : String) : CKind :=
  let lower := jsToLower concept
  match conceptTypeIndicators.find?
      (fun p => p.2.any (fun ind => jsIncludes lower ind)) with
  | some p => p.1
  | none =>
    if jsEndsWith lower "ing" || jsEndsWith lower "tion" || jsEndsWith lower "ment" then
      .process
    else if jsEndsWith lower "ness" || jsEndsWith lower "ity" || jsEndsWith lower "able" then
      .quality
    else if headUpperLike concept then
      .entity
    else
      .abstract

/-- `DomainAnalyzer.calculateConceptConfidence`. -/
def calculateConceptConfidence (concept : String) : ℚ :=
  let c1 : ℚ := 1/2
  let c2 : ℚ := if headUpperLike concept then c1 + 1/5 else c1
  let c3 : ℚ := if jsIncludes concept " " || jsIncludes concept "-" then c2 + 1/10 else c2
  let c4 : ℚ :=
    if jsIncludes concept "_" || (concept.data.drop 1).any Char.isUpper then
      c3 + 3/20
    else c3
  min c4 1

/-- `DomainAnalyzer.addOrUpdateConcept`. -/
def addOrUpdateConcept (m : List (String × ExtractedConcept)) (name context : String) :
    List (String × ExtractedConcept) :=
  match mapGet m name with
  | some existing =>
    mapSet m name
      { existing with
        frequency := existing.frequency + 1,
        contexts :=
          if existing.contexts.contains context then existing.contexts
          else existing.contexts ++ [context] }
  | none =>
    mapSet m name
      { name := name, type := inferConceptType name, frequency := 1,
        contexts := [context], confidence := calculateConceptConfidence name }

/-- One document's contribution to the concept map
(`DomainAnalyzer.extractConcepts`, loop body). -/
def extractConceptsStep (m : List (String × ExtractedConcept)) (t : Tiddler) :
    List (String × ExtractedConcept) :=
  let combined := jsToLower (t.title ++ " " ++ t.text)
  let words := tokenize combined
  let phrases := extractPhrases combined
  let m1 := words.foldl
    (fun m w => if isValidConcept w then addOrUpdateConcept m w t.title else m) m
  let m2 := phrases.foldl
    (fun m p => if isValidConcept p then addOrUpdateConcept m p t.title else m) m1
  t.tags.foldl (fun m tag => addOrUpdateConcept m (jsToLower tag) t.title) m2

/-- Stable descending sort by frequency (JS `sort((a, b) => b.frequency -
a.frequency)`, stable per the ECMAScript spec). -/
def sortByFrequencyDesc (l : List ExtractedConcept) : List ExtractedConcept :=
  stableSortBy (fun a b => b.frequency < a.frequency) l

/-- `DomainAnalyzer.extractConcepts`. -/
def extractConcepts (tiddlers : List Tiddler) : List ExtractedConcept :=
  let m := tiddlers.foldl extractConceptsStep []
  sortByFrequencyDesc ((mapValues m).filter (fun c => 1 < c.frequency))

/-- `DomainAnalyzer.identifyRelationshipType`: ordered pattern tests. -/
def identifyRelationshipType (sentence : String) : String :=
  if isAPatternTest sentence then "is-a"
  else if testWordAlts ["has", "have", "had", "contains", "includes"] sentence then "has-a"
  else if testWordAlts ["part of", "belongs to", "component of", "element of"] sentence then "part-of"
  else if testWordAlts ["causes", "leads to", "results in", "triggers"] sentence then "causes"
  else if testWordAlts ["enables", "allows", "permits", "facilitates"] sentence then "enables"
  else if testWordAlts ["similar to", "like", "resembles", "comparable to"] sentence then "similar-to"
  else if testWordAlts ["related to", "associated with", "connected to", "linked to"] sentence then "related-to"
  else "related-to"

/-- `DomainAnalyzer.calculateRelationshipConfidence`. -/
def calculateRelationshipConfidence (sentence c1 c2 : String) : ℚ :=
  let base : ℚ := 3/10
  let distance : ℚ := ((jsIndexOf sentence c1 - jsIndexOf sentence c2).natAbs : ℚ)
  let proximity : ℚ := max 0 (1 - distance / (sentence.length : ℚ))
  let withProx := base + proximity * (3/10)
  let boosted :=
    if testWordAlts ["is", "are", "has", "have", "causes", "enables"] sentence then
      withProx + 1/5
    else withProx
  min boosted 1

/-- Update the first stored relationship matching the unordered pair
`(a, b)` (JS `Array.prototype.find` returns the first match, which the
source then mutates in place). -/
def updateExistingRel (a b sentence : String) :
    List ExtractedRelationship → List ExtractedRelationship
  | [] => []
  | r :: rest =>
    if (r.source = a && r.target = b) || (r.source = b && r.target = a) then
      { r with strength := r.strength + 1/10,
               evidence := r.evidence ++ [jsTake sentence 100] } :: rest
    else
      r :: updateExistingRel a b sentence rest

/-- One ordered concept pair of one sentence
(`DomainAnalyzer.extractRelationships`, inner double loop body). -/
def observePair (rtype sentence : String) (rels : List ExtractedRelationship)
    (p : String × String) : List ExtractedRelationship :=
  if rels.any (fun r =>
      (r.source = p.1 && r.target = p.2) || (r.source = p.2 && r.target = p.1)) then
    updateExistingRel p.1 p.2 sentence rels
  else
    rels ++ [{ source := p.1, target := p.2, type := rtype, strength := 3/10,
               evidence := [jsTake sentence 100],
               confidence := calculateRelationshipConfidence sentence p.1 p.2 }]

/-- The ordered pairs `(found[i], found[j])`, `i < j`, of the source's
double loop. -/
def orderedPairs : List α → List (α × α)
  | [] => []
  | x :: xs => xs.map (fun y => (x, y)) ++ orderedPairs xs

/-- One sentence's contribution to the relationship list. -/
def relSentenceStep (names : List String) (rels : List ExtractedRelationship)
    (sentence : String) : List ExtractedRelationship :=
  let found := names.filter (fun n => jsIncludes sentence n)
  if 2 ≤ found.length then
    let rtype := identifyRelationshipType sentence
    (orderedPairs found).foldl (observePair rtype sentence) rels
  else rels

/-- The consolidation pass of `DomainAnalyzer.extractRelationships`, before
the strength filter and sort. -/
def extractRelationshipsCore (tiddlers : List Tiddler)
    (concepts : List ExtractedConcept) : List ExtractedRelationship :=
  let names := setOfList (concepts.map (·.name))
  tiddlers.foldl
    (fun rels t =>
      (splitIntoSentences (jsToLower t.text)).foldl (relSentenceStep names) rels)
    []

/-- Stable descending sort by strength. -/
def sortByStrengthDesc (l : List ExtractedRelationship) : List ExtractedRelationship :=
  stableSortBy (fun a b => b.strength < a.strength) l

/-- `DomainAnalyzer.extractRelationships`. -/
def extractRelationships (tiddlers : List Tiddler)
    (concepts : List ExtractedConcept) : List ExtractedRelationship :=
  sortByStrengthDesc
    ((extractRelationshipsCore tiddlers concepts).filter (fun r => 1/5 < r.strength))

/-! ### `ConceptHierarchy` -/

/-- A node of the concept hierarchy (`HierarchyNode`).  The source stores
child object references inside an id-indexed map; the embedding stores the
child ids, which denote the same nodes. -/
structure HierarchyNode where
  id : String
  name : String
  level : Nat
  children : List String
  parent : Option String
  confidence : ℚ
  evidence : List String
  properties : List String
deriving Repr, DecidableEq

/-- The mutable state of a `ConceptHierarchy` instance. -/
structure HierarchyState where
  hierarchy : List (String × HierarchyNode)
  rootNodes : List String
deriving Repr, DecidableEq

/-- JS truthiness of the optional `parent` field: `undefined` and the empty
string are both falsy. -/
def parentTruthy : Option String → Bool
  | some s => s ≠ ""
  | none => false

/-- `ConceptHierarchy.inferProperties`. -/
def inferProperties : CKind → List String
  | .entity => ["hasName", "hasIdentifier", "hasDescription"]
  | .process => ["hasInput", "hasOutput", "hasDuration", "hasSteps"]
  | .quality => ["hasValue", "hasUnit", "hasMeasurement"]
  | .abstract => ["hasDefinition", "hasContext", "hasApplication"]

/-- The string form of a concept kind. -/
def ckindStr : CKind → String
  | .entity => "entity"
  | .process => "process"
  | .quality => "quality"
  | .abstract => "abstract"

/-- `ConceptHierarchy.initializeNodes`. -/
def initializeNodes (concepts : List ExtractedConcept) : HierarchyState :=
  concepts.foldl
    (fun st c =>
      let node : HierarchyNode :=
        { id := generateId c.name, name := c.name, level := 0, children := [],
          parent := none, confidence := c.confidence, evidence := c.contexts,
          properties := inferProperties c.type }
      { hierarchy := mapSet st.hierarchy node.id node,
        rootNodes := setAdd st.rootNodes node.id })
    { hierarchy := [], rootNodes := [] }

/-- `ConceptHierarchy.hasCycleDFS`: walk the `parent` chain from
`currentId` looking for `targetId`.  The source recursion always
terminates because `visited` grows at every step; the fuel
`hierarchy.length + 1` given by `wouldCreateCycle` is enough for that walk
(each recursive step consumes a distinct key of the map). -/
def hasCycleDFS (h : List (String × HierarchyNode)) :
    Nat → String → String → List String → Bool
  | 0, _, _, _ => false
  | fuel + 1, currentId, targetId, visited =>
    if currentId = targetId then true
    else if visited.contains currentId then false
    else
      match mapGet h currentId with
      | none => false
      | some current =>
        match current.parent with
        | some p =>
          if p ≠ "" then hasCycleDFS h fuel p targetId (setAdd visited currentId)
          else false
        | none => false

/-- `ConceptHierarchy.wouldCreateCycle`. -/
def wouldCreateCycle (h : List (String × HierarchyNode)) (parentId childId : String) : Bool :=
  hasCycleDFS h (h.length + 1) parentId childId []

/-- `ConceptHierarchy.addParentChildRelationship`: the only place edges are
created.  A child that already has a (truthy) parent, or an edge whose
addition the ancestor walk flags, leaves the state untouched. -/
def addParentChildRelationship (st : HierarchyState) (parentId childId : String)
    (confidence : ℚ) : HierarchyState :=
  match mapGet st.hierarchy parentId, mapGet st.hierarchy childId with
  | some parent, some child =>
    if parentTruthy child.parent then st
    else if wouldCreateCycle st.hierarchy parentId childId then st
    else
      let child2 :=
        { child with parent := some parentId,
                     confidence := min (child.confidence + confidence * (1/10)) 1 }
      let h1 := mapSet st.hierarchy childId child2
      let h2 := mapSet h1 parentId { parent with children := parent.children ++ [childId] }
      { hierarchy := h2, rootNodes := setDelete st.rootNodes childId }
  | _, _ => st

/-- `ConceptHierarchy.buildIsARelationships`. -/
def buildIsARelationships (st : HierarchyState)
    (relationships : List ExtractedRelationship) : HierarchyState :=
  (relationships.filter (fun r => r.type = "is-a")).foldl
    (fun st rel =>
      let childId := generateId rel.source
      let parentId := generateId rel.target
      if (mapGet st.hierarchy childId).isSome && (mapGet st.hierarchy parentId).isSome then
        addParentChildRelationship st parentId childId rel.confidence
      else st)
    st

/-- `ConceptHierarchy.calculateSpecificity`. -/
def calculateSpecificity (concept : ExtractedConcept) : ℚ :=
  let wordCount := (splitWs concept.name).length
  let s1 : ℚ := 1/2 + ((wordCount : ℚ) - 1) * (1/5)
  let s2 := if concept.frequency < 3 then s1 + 1/5 else s1
  let s3 := if concept.contexts.length < 3 then s2 + 1/10 else s2
  min s3 1

/-- The specificity band of `groupBySpecificity`. -/
def specLevel (concept : ExtractedConcept) : Nat :=
  let s := calculateSpecificity concept
  if s < 3/10 then 0 else if s < 7/10 then 1 else 2

/-- `ConceptHierarchy.groupBySpecificity` (a number-keyed JS `Map`,
iterated in key insertion order). -/
def groupBySpecificity (concepts : List ExtractedConcept) :
    List (Nat × List ExtractedConcept) :=
  concepts.foldl
    (fun groups c =>
      match mapGet groups (specLevel c) with
      | some l => mapSet groups (specLevel c) (l ++ [c])
      | none => mapSet groups (specLevel c) [c])
    []

/-- `ConceptHierarchy.calculateParentScore`. -/
def calculateParentScore (child parent : ExtractedConcept) : ℚ :=
  let shared := child.contexts.filter (fun ctx => parent.contexts.contains ctx)
  let s1 : ℚ := (shared.length : ℚ) * (1/5)
  let s2 :=
    if jsIncludes child.name parent.name || jsIncludes parent.name child.name then
      s1 + 3/10
    else s1
  let s3 := if child.frequency < parent.frequency then s2 + 1/5 else s2
  min s3 1

/-- `ConceptHierarchy.findBestParent`: best strictly improving candidate,
kept only above the 0.3 score threshold. -/
def findBestParent (concept : ExtractedConcept)
    (candidates : List ExtractedConcept) : Option ExtractedConcept :=
  let best := candidates.foldl
    (fun (acc : ℚ × Option ExtractedConcept) cand =>
      let score := calculateParentScore concept cand
      if acc.1 < score then (score, some cand) else acc)
    (0, none)
  if 3/10 < best.1 then best.2 else none

/-- JS `type.charAt(0).toUpperCase() + type.slice(1)`. -/
def capitalizeHead (s : String) : String :=
  match s.data with
  | [] => ""
  | c :: rest => String.mk (c.toUpper :: rest)

/-- `ConceptHierarchy.createTypeHierarchy`. -/
def createTypeHierarchy (st : HierarchyState) (k : CKind)
    (concepts : List ExtractedConcept) : HierarchyState :=
  let typeParentId := generateId (ckindStr k)
  let st :=
    if mapHas st.hierarchy typeParentId then st
    else
      { hierarchy :=
          mapSet st.hierarchy typeParentId
            { id := typeParentId, name := capitalizeHead (ckindStr k), level := 0,
              children := [], parent := none, confidence := 4/5,
              evidence := ["Inferred from concept types"], properties := [] },
        rootNodes := setAdd st.rootNodes typeParentId }
  let groups := groupBySpecificity concepts
  groups.foldl
    (fun st p =>
      p.2.foldl
        (fun st concept =>
          let conceptId := generateId concept.name
          match mapGet st.hierarchy conceptId with
          | some conceptNode =>
            if parentTruthy conceptNode.parent then st
            else if p.1 = 0 then
              addParentChildRelationship st typeParentId conceptId (3/5)
            else
              let parentConcepts := (mapGet groups (p.1 - 1)).getD []
              match findBestParent concept parentConcepts with
              | some bestParent =>
                let parentId := generateId bestParent.name
                if (mapGet st.hierarchy parentId).isSome then
                  addParentChildRelationship st parentId conceptId (1/2)
                else st
              | none => st
          | none => st)
        st)
    st

/-- `ConceptHierarchy.inferLinguisticHierarchies`. -/
def inferLinguisticHierarchies (st : HierarchyState)
    (concepts : List ExtractedConcept) : HierarchyState :=
  concepts.foldl
    (fun st concept =>
      let words := splitWs concept.name
      if 1 < words.length then
        let potentialParents := words.filterMap
          (fun word => concepts.find? (fun c => jsToLower c.name = jsToLower word))
        potentialParents.foldl
          (fun st pp =>
            let childId := generateId concept.name
            let parentId := generateId pp.name
            match mapGet st.hierarchy childId, mapGet st.hierarchy parentId with
            | some childNode, some _ =>
              if parentTruthy childNode.parent then st
              else addParentChildRelationship st parentId childId (2/5)
            | _, _ => st)
          st
      else st)
    st

/-- `ConceptHierarchy.inferMissingHierarchy`. -/
def inferMissingHierarchy (st : HierarchyState)
    (concepts : List ExtractedConcept) : HierarchyState :=
  let byType := concepts.foldl
    (fun (m : List (CKind × List ExtractedConcept)) c =>
      match mapGet m c.type with
      | some l => mapSet m c.type (l ++ [c])
      | none => mapSet m c.type [c])
    []
  let st := byType.foldl (fun st p => createTypeHierarchy st p.1 p.2) st
  inferLinguisticHierarchies st concepts

/-- `ConceptHierarchy.calculateNodeLevel`, with fuel for the descent into
children (in a forest the depth is bounded by the number of nodes, so the
fuel `hierarchy.length + 1` used by `calculateLevels` never runs out). -/
def calculateNodeLevel (fuel : Nat) (h : List (String × HierarchyNode))
    (nodeId : String) (level : Nat) : List (String × HierarchyNode) :=
  match fuel with
  | 0 => h
  | fuel + 1 =>
    match mapGet h nodeId with
    | none => h
    | some node =>
      let h := mapSet h nodeId { node with level := level }
      node.children.foldl
        (fun h childId => calculateNodeLevel fuel h childId (level + 1)) h

/-- `ConceptHierarchy.calculateLevels`. -/
def calculateLevels (st : HierarchyState) : List (String × HierarchyNode) :=
  st.rootNodes.foldl
    (fun h rootId => calculateNodeLevel (h.length + 1) h rootId 0) st.hierarchy

/-- The state after `ConceptHierarchy.buildHierarchy` on fresh instance
state: node table construction, explicit is-a wiring, inferred hierarchy,
level computation. -/
def buildHierarchyState (concepts : List ExtractedConcept)
    (relationships : List ExtractedRelationship) : HierarchyState :=
  let st := initializeNodes concepts
  let st := buildIsARelationships st relationships
  let st := inferMissingHierarchy st concepts
  { st with hierarchy := calculateLevels st }

/-- `ConceptHierarchy.getRootNodes`. -/
def getRootNodes (st : HierarchyState) : List HierarchyNode :=
  st.rootNodes.filterMap (fun id => mapGet st.hierarchy id)

/-- `ConceptHierarchy.buildHierarchy`: the returned forest of root nodes. -/
def buildHierarchy (concepts : List ExtractedConcept)
    (relationships : List ExtractedRelationship) : List HierarchyNode :=
  getRootNodes (buildHierarchyState concepts relationships)

/-! ### Observables of the hierarchy graph

The forest shape of the built hierarchy is phrased through the parent
pointer map: `parentOf` reads a node's parent field, `parentStep` is the
induced step relation, `isChain` lists the successive nodes of a parent
walk, `sameShape` relates two hierarchy tables that differ only in node
levels, and `HInv` collects the graph invariants the construction
maintains when every node id is nonempty. -/

/-- The stored parent pointer of node `x` (independent of JS truthiness). -/
def parentOf (h : List (String × HierarchyNode)) (x : String) : Option String :=
  (mapGet h x).bind (fun n => n.parent)

/-- One step of the parent-pointer relation. -/
def parentStep (h : List (String × HierarchyNode)) (u v : String) : Prop :=
  parentOf h u = some v

/-- `isChain h a l c`: successive parent steps lead from `a` through the
nodes of `l`, ending at `c`. -/
def isChain (h : List (String × HierarchyNode)) : String → List String → String → Prop
  | a, [], c => a = c
  | a, b :: l, c => parentStep h a b ∧ isChain h b l c

/-- Two hierarchy tables with the same keys whose nodes agree on `parent`
and `children` (the level-computation pass only rewrites levels). -/
def sameShape (h h2 : List (String × HierarchyNode)) : Prop :=
  mapKeys h2 = mapKeys h ∧
    ∀ x n2, mapGet h2 x = some n2 →
      ∃ n, mapGet h x = some n ∧ n2.parent = n.parent ∧ n2.children = n.children

/-- The graph invariants of a hierarchy state built from nonempty-named
concepts: keys are nonempty, parent pointers resolve to present keys,
children lists are exactly the inverse of the parent pointers, and the
parent relation has no directed cycle. -/
structure HInv (st : HierarchyState) : Prop where
  idsNonempty : ∀ x ∈ mapKeys st.hierarchy, x ≠ ""
  parentKeys : ∀ x n p, mapGet st.hierarchy x = some n → n.parent = some p →
    p ∈ mapKeys st.hierarchy
  childrenIff : ∀ x n, mapGet st.hierarchy x = some n →
    ∀ c, (c ∈ n.children ↔ ∃ m, mapGet st.hierarchy c = some m ∧ m.parent = some x)
  acyclic : ∀ x, ¬ Relation.TransGen (parentStep st.hierarchy) x x

/-! ### Ontology store data model (`types/ontology.ts`) -/

/-- `PropertyConstraint` (the `any`-typed `value` field is never read by the
embedded code and is elided). -/
structure PropertyConstraint where
  type : String
  message : String
deriving Repr, DecidableEq

/-- Property cardinality; `none` stands for `'unbounded'`. -/
structure Cardinality where
  min : ℚ
  max : Option ℚ
deriving Repr, DecidableEq

/-- `OntologyProperty`. -/
structure OntologyProperty where
  id : String
  name : String
  description : Option String
  domain : List String
  range : List String
  type : String
  cardinality : Cardinality
  constraints : List PropertyConstraint
deriving Repr, DecidableEq

/-- `OntologyConstraint`. -/
structure OntologyConstraint where
  id : String
  type : String
  expression : String
  description : String
  severity : String
deriving Repr, DecidableEq

/-- Class metadata. -/
structure ClassMetadata where
  created : String
  modified : String
  confidence : ℚ
  source : String
deriving Repr, DecidableEq

/-- `OntologyClass`. -/
structure OntologyClass where
  id : String
  name : String
  description : Option String
  superClasses : List String
  subClasses : List String
  properties : List OntologyProperty
  constraints : List OntologyConstraint
  instances : List String
  metadata : ClassMetadata
deriving Repr, DecidableEq

/-- Relationship metadata. -/
structure RelMetadata where
  created : String
  source : String
deriving Repr, DecidableEq

/-- `OntologyRelationship`.  The free-form `properties` record is modelled
by its key/value list; only the keys are ever inspected. -/
structure OntologyRelationship where
  id : String
  type : String
  source : String
  target : String
  properties : List (String × String)
  confidence : ℚ
  bidirectional : Bool
  metadata : RelMetadata
deriving Repr, DecidableEq

/-- `Domain`. -/
structure Domain where
  id : String
  name : String
  description : String
  scope : List String
  classes : List String
  properties : List String
  relationships : List String
  coverage : ℚ
  coherence : ℚ
deriving Repr, DecidableEq

/-- `ValidationError`. -/
structure ValidationError where
  type : String
  severity : String
  message : String
  affectedElements : List String
  suggestedFix : Option String
deriving Repr, DecidableEq

/-- `ValidationWarning`. -/
structure ValidationWarning where
  type : String
  message : String
  affectedElements : List String
  recommendation : String
deriving Repr, DecidableEq

/-- `ValidationSuggestion`. -/
structure ValidationSuggestion where
  type : String
  confidence : ℚ
  description : String
  impact : String
  implementation : String
deriving Repr, DecidableEq

/-- The four quality metrics of a validation result. -/
structure OntologyMetrics where
  consistency : ℚ
  completeness : ℚ
  clarity : ℚ
  coverage : ℚ
deriving Repr, DecidableEq

/-- `OntologyValidationResult`. -/
structure OntologyValidationResult where
  valid : Bool
  errors : List ValidationError
  warnings : List ValidationWarning
  suggestions : List ValidationSuggestion
  metrics : OntologyMetrics
deriving Repr, DecidableEq

/-! ### `OntologyManager` -/

/-- The four maps held by an `OntologyManager` instance. -/
structure OntologyStore where
  classes : List (String × OntologyClass)
  properties : List (String × OntologyProperty)
  relationships : List (String × OntologyRelationship)
  domains : List (String × Domain)
deriving Repr, DecidableEq

/-- A freshly constructed `OntologyManager`. -/
def emptyStore : OntologyStore :=
  { classes := [], properties := [], relationships := [], domains := [] }

/-- `OntologyManager.updateClassHierarchy`: push the new class id onto the
`subClasses` of every super class that is present (the lookups see the map
as already containing the new class). -/
def updateClassHierarchy (classes : List (String × OntologyClass))
    (ontologyClass : OntologyClass) : List (String × OntologyClass) :=
  ontologyClass.superClasses.foldl
    (fun m superClassId =>
      match mapGet m superClassId with
      | some superClass =>
        if superClass.subClasses.contains ontologyClass.id then m
        else
          mapSet m superClassId
            { superClass with subClasses := superClass.subClasses ++ [ontologyClass.id] }
      | none => m)
    classes

/-- `OntologyManager.addClass`. -/
def addClass (s : OntologyStore) (ontologyClass : OntologyClass) : OntologyStore :=
  let classes := mapSet s.classes ontologyClass.id ontologyClass
  { s with classes := updateClassHierarchy classes ontologyClass }

/-- `OntologyManager.removeFromHierarchy`. -/
def removeFromHierarchy (classes : List (String × OntologyClass))
    (cls : OntologyClass) : List (String × OntologyClass) :=
  let m1 := cls.superClasses.foldl
    (fun m superClassId =>
      match mapGet m superClassId with
      | some superClass =>
        mapSet m superClassId
          { superClass with
            subClasses := superClass.subClasses.filter (fun id => ¬ id = cls.id) }
      | none => m)
    classes
  cls.subClasses.foldl
    (fun m subClassId =>
      match mapGet m subClassId with
      | some subClass =>
        mapSet m subClassId
          { subClass with
            superClasses := subClass.superClasses.filter (fun id => ¬ id = cls.id) }
      | none => m)
    m1

/-- `OntologyManager.removeClassRelationships`. -/
def removeClassRelationships (rels : List (String × OntologyRelationship))
    (classId : String) : List (String × OntologyRelationship) :=
  rels.filter (fun p => ¬ (p.2.source = classId || p.2.target = classId))

/-- `OntologyManager.deleteClass` (state and returned boolean). -/
def deleteClass (s : OntologyStore) (id : String) : OntologyStore × Bool :=
  match mapGet s.classes id with
  | none => (s, false)
  | some cls =>
    let classes := removeFromHierarchy s.classes cls
    let relationships := removeClassRelationships s.relationships id
    ({ s with classes := mapDelete classes id, relationships := relationships }, true)

/-- `OntologyManager.createBidirectionalRelationship`. -/
def createBidirectionalRelationship (rels : List (String × OntologyRelationship))
    (relationship : OntologyRelationship) : List (String × OntologyRelationship) :=
  let reverseId := relationship.target ++ "-" ++ relationship.type ++ "-" ++ relationship.source
  if mapHas rels reverseId then rels
  else
    mapSet rels reverseId
      { relationship with id := reverseId, source := relationship.target,
                          target := relationship.source }

/-- `OntologyManager.addRelationship`. -/
def addRelationship (s : OntologyStore) (relationship : OntologyRelationship) :
    OntologyStore :=
  let rels := mapSet s.relationships relationship.id relationship
  { s with
    relationships :=
      if relationship.bidirectional then createBidirectionalRelationship rels relationship
      else rels }

/-- The public mutating operations of the Ontology Store. -/
inductive StoreOp where
  | addClass (c : OntologyClass)
  | deleteClass (id : String)
  | addProperty (p : OntologyProperty)
  | addRelationship (r : OntologyRelationship)
  | addDomain (d : Domain)
deriving Repr

/-- Application of one public operation. -/
def applyOp (s : OntologyStore) : StoreOp → OntologyStore
  | .addClass c => addClass s c
  | .deleteClass id => (deleteClass s id).1
  | .addProperty p => { s with properties := mapSet s.properties p.id p }
  | .addRelationship r => addRelationship s r
  | .addDomain d => { s with domains := mapSet s.domains d.id d }

/-- The store reached from the empty store by a sequence of operations. -/
def runOps (ops : List StoreOp) : OntologyStore :=
  ops.foldl applyOp emptyStore

/-! #### Cycle detection of `OntologyManager.detectCircularDependencies`
(the identical routine `OntologyValidator.detectCycle` shares this
embedding). -/

/-- JS `Array.prototype.indexOf` on string lists. -/
def indexOfStr (l : List String) (x : String) : Int :=
  match l.findIdx? (fun y => y = x) with
  | some i => (i : Int)
  | none => -1

/-- JS `Array.prototype.slice(i)` including the negative-index case. -/
def jsSliceFrom (l : List String) (idx : Int) : List String :=
  let start : Int := if idx < 0 then max ((l.length : Int) + idx) 0 else idx
  l.drop start.toNat

/-- The `for (const superClassId of cls.superClasses)` loop of
`detectCycleInHierarchy`, with the early returns of the source; `go` is the
recursive entry into `detectCycleGo` at the next depth.  Note that the
source pops the stack only on normal exit: a returned cycle leaves the
stack as is. -/
def detectCycleSupers
    (go : String → List String → List String → List String →
      List String × List String × List String)
    (classId : String) :
    List String → List String → List String → List String →
    List String × List String × List String
  | [], visited, stack, _ => ([], visited, setDelete stack classId)
  | superClassId :: rest, visited, stack, path =>
    if ¬ visited.contains superClassId then
      match go superClassId visited stack path with
      | ([], v2, s2) => detectCycleSupers go classId rest v2 s2 path
      | r => r
    else if stack.contains superClassId then
      (jsSliceFrom path (indexOfStr path superClassId) ++ [superClassId], visited, stack)
    else
      detectCycleSupers go classId rest visited stack path

/-- One `detectCycleInHierarchy` invocation: marks the class visited and on
the stack, extends the path, then iterates over its super classes.  Returns
the found cycle (empty when none) together with the visited and stack sets,
which the source shares mutably across the whole scan. -/
def detectCycleGo (classes : List (String × OntologyClass)) :
    Nat → String → List String → List String → List String →
    List String × List String × List String
  | 0, _, visited, stack, _ => ([], visited, stack)
  | fuel + 1, classId, visited, stack, path =>
    let visited2 := setAdd visited classId
    let stack2 := setAdd stack classId
    let path2 := path ++ [classId]
    match mapGet classes classId with
    | none => ([], visited2, stack2)
    | some cls =>
      detectCycleSupers (fun sid v s p => detectCycleGo classes fuel sid v s p) classId
        cls.superClasses visited2 stack2 path2

/-- Fuel that always suffices for the cycle scan: the DFS depth is bounded
by the number of distinct ids it can enter (map keys plus referenced super
class ids), since every entered id is fresh in `visited`. -/
def cycleFuel (classes : List (String × OntologyClass)) : Nat :=
  classes.length + classes.foldl (fun n p => n + p.2.superClasses.length) 0 + 1

/-- `OntologyManager.detectCircularDependencies`. -/
def detectCircularDependencies (s : OntologyStore) : List ValidationError :=
  let scan := (mapKeys s.classes).foldl
    (fun (acc : List ValidationError × List String × List String) classId =>
      if ¬ acc.2.1.contains classId then
        let r := detectCycleGo s.classes (cycleFuel s.classes) classId acc.2.1 acc.2.2 []
        if r.1.isEmpty then (acc.1, r.2)
        else
          (acc.1 ++
            [{ type := "circular_dependency", severity := "critical",
               message := "Circular dependency detected in class hierarchy: " ++
                 String.intercalate " -> " r.1,
               affectedElements := r.1,
               suggestedFix := some ("Remove inheritance relationship between " ++
                 (r.1.getLast?.getD "") ++ " and " ++ (r.1.head?.getD "")) }],
           r.2)
      else acc)
    ([], [], [])
  scan.1

/-- `OntologyManager.getRelationshipsForClass`. -/
def getRelationshipsForClass (s : OntologyStore) (classId : String) :
    List OntologyRelationship :=
  (mapValues s.relationships).filter
    (fun rel => rel.source = classId || rel.target = classId)

/-- `OntologyManager.detectOrphanedClasses`. -/
def detectOrphanedClasses (s : OntologyStore) : List ValidationWarning :=
  (mapValues s.classes).foldl
    (fun ws cls =>
      if cls.instances.length = 0 && cls.subClasses.length = 0 &&
          (getRelationshipsForClass s cls.id).length = 0 then
        ws ++
          [{ type := "orphaned_class",
             message := "Class \"" ++ cls.name ++
               "\" has no instances, subclasses, or relationships",
             affectedElements := [cls.id],
             recommendation := "Consider adding instances or connecting to other classes" }]
      else ws)
    []

/-- `OntologyManager.extractKeywords`. -/
def extractKeywords (text : String) : List String :=
  ((splitWs (dropNonWord (jsToLower text))).filter (fun w => 3 < w.length)).take 10

/-- `OntologyManager.calculateSemanticSimilarity`.  With two empty keyword
lists the source divides 0 by 0 (JS `NaN`), which then fails the `> 0.5`
filter; the rational 0 produced here has the same effect. -/
def calculateSemanticSimilarity (cls1 cls2 : OntologyClass) : ℚ :=
  let words1 := extractKeywords (cls1.name ++ " " ++ (cls1.description.getD ""))
  let words2 := extractKeywords (cls2.name ++ " " ++ (cls2.description.getD ""))
  let inter := words1.filter (fun w => words2.contains w)
  let uni := setOfList (words1 ++ words2)
  (inter.length : ℚ) / (uni.length : ℚ)

/-- `OntologyManager.findPotentiallyRelatedClasses`. -/
def findPotentiallyRelatedClasses (s : OntologyStore) (cls : OntologyClass) :
    List (String × String × ℚ) :=
  let scored := ((mapValues s.classes).filter (fun other => ¬ other.id = cls.id)).map
    (fun other => (other.id, other.name, calculateSemanticSimilarity cls other))
  let kept := scored.filter (fun r => 1/2 < r.2.2)
  (stableSortBy (fun a b => b.2.2 < a.2.2) kept).take 3

/-- `OntologyManager.suggestMissingRelationships`. -/
def suggestMissingRelationships (s : OntologyStore) : List ValidationSuggestion :=
  (mapValues s.classes).foldl
    (fun acc cls =>
      (findPotentiallyRelatedClasses s cls).foldl
        (fun acc related =>
          let existing := (mapValues s.relationships).any
            (fun rel =>
              (rel.source = cls.id && rel.target = related.1) ||
              (rel.source = related.1 && rel.target = cls.id))
          if existing then acc
          else
            acc ++
              [{ type := "add_relationship", confidence := related.2.2,
                 description := "Consider adding relationship between \"" ++ cls.name ++
                   "\" and \"" ++ related.2.1 ++ "\"",
                 impact := if 7/10 < related.2.2 then "high" else "medium",
                 implementation := "Add semantic relationship based on content analysis" }])
        acc)
    []

/-- `OntologyManager.calculateClarityScore`. -/
def calculateClarityScore (s : OntologyStore) : ℚ :=
  let withDescriptions := ((mapValues s.classes).filter
    (fun cls => match cls.description with
      | some d => d.length ≠ 0
      | none => false)).length
  (withDescriptions : ℚ) / max (s.classes.length : ℚ) 1

/-- `OntologyManager.calculateConsistencyScore`, applied to the result of
the recursive `validateOntology()` call it makes. -/
def storeConsistencyFrom (s : OntologyStore) (validation : OntologyValidationResult) : ℚ :=
  let errorPenalty := (validation.errors.length : ℚ) * (7/10)
  let warningPenalty := (validation.warnings.length : ℚ) * (3/10)
  max 0 (1 - (errorPenalty + warningPenalty) / max (s.classes.length : ℚ) 1)

/-- `OntologyManager.validateOntology`, with fuel bounding the recursion
depth.  The source computes errors, warnings and suggestions, then calls
`calculateOntologyMetrics`, whose `calculateConsistencyScore` immediately
calls `this.validateOntology()` again; the fuel decreases across that
re-entrant call and `none` models a call that never returns. -/
def validateOntologyFuel : Nat → OntologyStore → Option OntologyValidationResult
  | 0, _ => none
  | fuel + 1, s =>
    let errors := detectCircularDependencies s
    let warnings := detectOrphanedClasses s
    let suggestions := suggestMissingRelationships s
    match validateOntologyFuel fuel s with
    | none => none
    | some inner =>
      let consistency := storeConsistencyFrom s inner
      let completeness :=
        (((mapValues s.classes).filter (fun cls => cls.instances.length ≠ 0)).length : ℚ) /
          max (s.classes.length : ℚ) 1
      some
        { valid := decide (errors.length = 0), errors := errors, warnings := warnings,
          suggestions := suggestions,
          metrics :=
            { consistency := consistency, completeness := completeness,
              clarity := calculateClarityScore s, coverage := 4/5 } }

/-- `ConceptHierarchy.toOntologyClasses`.  The `created`/`modified`
timestamps are wall-clock strings in the source; nothing embedded here ever
reads them, and they are elided to `""`.  The source guards the parent with
a truthiness test, so an empty-string parent id yields no super class. -/
def toOntologyClasses (st : HierarchyState) : List OntologyClass :=
  (mapValues st.hierarchy).map
    (fun node =>
      { id := node.id, name := node.name,
        description := some (node.name ++ " concept derived from hierarchy analysis"),
        superClasses := if parentTruthy node.parent then [node.parent.getD ""] else [],
        subClasses := node.children,
        properties := [], constraints := [], instances := [],
        metadata :=
          { created := "", modified := "", confidence := node.confidence,
            source := "inferred" } })

/-! ### `OntologyValidator` -/

namespace OntologyValidator

/-- `ValidationContext`: the three id-indexed maps built from the input
lists. -/
structure ValidationContext where
  classes : List (String × OntologyClass)
  properties : List (String × OntologyProperty)
  relationships : List (String × OntologyRelationship)
deriving Repr, DecidableEq

/-- The context construction at the top of `validateOntology`. -/
def mkContext (classes : List OntologyClass) (properties : List OntologyProperty)
    (relationships : List OntologyRelationship) : ValidationContext :=
  { classes := mapOfEntries (classes.map (fun c => (c.id, c))),
    properties := mapOfEntries (properties.map (fun p => (p.id, p))),
    relationships := mapOfEntries (relationships.map (fun r => (r.id, r))) }

/-- `ValidationResult` as returned by a single rule. -/
structure RuleOutput where
  errors : List ValidationError
  warnings : List ValidationWarning
  suggestions : List ValidationSuggestion
deriving Repr, DecidableEq

/-- A registered `ValidationRule`.  The evaluation can throw in the source;
`Except` models that. -/
structure ValidationRule where
  name : String
  description : String
  severity : String
  validator : ValidationContext → Except String RuleOutput

/-- The cycle scan shared verbatim between `OntologyManager.
detectCircularDependencies` and `OntologyValidator.validateCircularDependencies`
(`detectCycle` is the same routine as `detectCycleInHierarchy`). -/
def circularDependencyErrors (classes : List (String × OntologyClass)) :
    List ValidationError :=
  let scan := (mapKeys classes).foldl
    (fun (acc : List ValidationError × List String × List String) classId =>
      if ¬ acc.2.1.contains classId then
        let r := detectCycleGo classes (cycleFuel classes) classId acc.2.1 acc.2.2 []
        if r.1.isEmpty then (acc.1, r.2)
        else
          (acc.1 ++
            [{ type := "circular_dependency", severity := "critical",
               message := "Circular dependency detected in class hierarchy: " ++
                 String.intercalate " -> " r.1,
               affectedElements := r.1,
               suggestedFix := some ("Remove inheritance relationship between " ++
                 (r.1.getLast?.getD "") ++ " and " ++ (r.1.head?.getD "")) }],
           r.2)
      else acc)
    ([], [], [])
  scan.1

/-- `validateCircularDependencies`. -/
def validateCircularDependencies (ctx : ValidationContext) : RuleOutput :=
  { errors := circularDependencyErrors ctx.classes, warnings := [], suggestions := [] }

/-- `validateSuperclassReferences`. -/
def validateSuperclassReferences (ctx : ValidationContext) : RuleOutput :=
  let errors := (mapValues ctx.classes).foldl
    (fun acc cls =>
      acc ++ cls.superClasses.foldl
        (fun acc2 superClassId =>
          if mapHas ctx.classes superClassId then acc2
          else
            acc2 ++
              [{ type := "missing_superclass", severity := "major",
                 message := "Class \"" ++ cls.name ++
                   "\" references non-existent superclass \"" ++ superClassId ++ "\"",
                 affectedElements := [cls.id, superClassId],
                 suggestedFix := some ("Define the missing superclass \"" ++ superClassId ++
                   "\" or remove the reference") }])
        [])
    []
  { errors := errors, warnings := [], suggestions := [] }

/-- `validatePropertyConstraints`.  Numeric interpolation into messages
uses the rational's canonical rendering; no theorem inspects those
characters. -/
def validatePropertyConstraints (ctx : ValidationContext) : RuleOutput :=
  (mapValues ctx.properties).foldl
    (fun acc property =>
      let domErrors := property.domain.foldl
        (fun es domainId =>
          if mapHas ctx.classes domainId then es
          else
            es ++
              [{ type := "constraint_violation", severity := "major",
                 message := "Property \"" ++ property.name ++
                   "\" has non-existent class \"" ++ domainId ++ "\" in domain",
                 affectedElements := [property.id, domainId],
                 suggestedFix := some ("Define the missing class \"" ++ domainId ++
                   "\" or remove from property domain") }])
        []
      let rangeErrors :=
        if property.type = "object" then
          property.range.foldl
            (fun es rangeId =>
              if mapHas ctx.classes rangeId then es
              else
                es ++
                  [{ type := "constraint_violation", severity := "major",
                     message := "Object property \"" ++ property.name ++
                       "\" has non-existent class \"" ++ rangeId ++ "\" in range",
                     affectedElements := [property.id, rangeId],
                     suggestedFix := some ("Define the missing class \"" ++ rangeId ++
                       "\" or remove from property range") }])
            []
        else []
      let minErrors :=
        if property.cardinality.min < 0 then
          [{ type := "constraint_violation", severity := "major",
             message := "Property \"" ++ property.name ++
               "\" has invalid minimum cardinality (" ++ toString property.cardinality.min ++ ")",
             affectedElements := [property.id],
             suggestedFix := some "Set minimum cardinality to 0 or higher" }]
        else []
      let maxErrors :=
        match property.cardinality.max with
        | some mx =>
          if mx < property.cardinality.min then
            [{ type := "constraint_violation", severity := "major",
               message := "Property \"" ++ property.name ++
                 "\" has maximum cardinality less than minimum",
               affectedElements := [property.id],
               suggestedFix := some
                 "Ensure maximum cardinality is greater than or equal to minimum" }]
          else []
        | none => []
      let isUsed := (mapValues ctx.relationships).any
        (fun rel => (rel.properties.map Prod.fst).contains property.name)
      let unusedWarnings :=
        if ¬ isUsed && property.domain.length = 0 then
          [{ type := "orphaned_class",
             message := "Property \"" ++ property.name ++ "\" appears to be unused",
             affectedElements := [property.id],
             recommendation :=
               "Consider removing unused property or adding proper domain/range" }]
        else []
      { acc with
        errors := acc.errors ++ domErrors ++ rangeErrors ++ minErrors ++ maxErrors,
        warnings := acc.warnings ++ unusedWarnings })
    ⟨[], [], []⟩

/-- `areContradictory`. -/
def areContradictory (rel1 rel2 : OntologyRelationship) : Bool :=
  if ¬ (rel1.source = rel2.source && rel1.target = rel2.target) then false
  else
    [("is-a", "part-of"), ("similar-to", "different-from"),
     ("causes", "prevents"), ("enables", "disables")].any
      (fun p =>
        (rel1.type = p.1 && rel2.type = p.2) || (rel1.type = p.2 && rel2.type = p.1))

/-- `validateRelationshipConsistency`. -/
def validateRelationshipConsistency (ctx : ValidationContext) : RuleOutput :=
  let relationships := mapValues ctx.relationships
  let errors := (orderedPairs relationships).foldl
    (fun es p =>
      if areContradictory p.1 p.2 then
        es ++
          [{ type := "logical_inconsistency", severity := "major",
             message := "Contradictory relationships: \"" ++ p.1.source ++ " " ++
               p.1.type ++ " " ++ p.1.target ++ "\" vs \"" ++ p.2.source ++ " " ++
               p.2.type ++ " " ++ p.2.target ++ "\"",
             affectedElements := [p.1.id, p.2.id],
             suggestedFix := some
               "Resolve the contradiction by removing or modifying one of the relationships" }]
      else es)
    []
  let warnings := relationships.foldl
    (fun ws rel =>
      if rel.bidirectional then
        let reverseExists := relationships.any
          (fun r => r.source = rel.target && r.target = rel.source && r.type = rel.type)
        if reverseExists then ws
        else
          ws ++
            [{ type := "redundant_relationship",
               message := "Bidirectional relationship \"" ++ rel.source ++ " " ++
                 rel.type ++ " " ++ rel.target ++ "\" is missing its reverse",
               affectedElements := [rel.id],
               recommendation := "Add the reverse relationship or mark as unidirectional" }]
      else ws)
    []
  { errors := errors, warnings := warnings, suggestions := [] }

/-- `stringSimilarity` (word Jaccard; `split(/\s+/)` never yields an empty
list, so the denominator is positive). -/
def stringSimilarity (str1 str2 : String) : ℚ :=
  let words1 := splitWs (jsToLower str1)
  let words2 := splitWs (jsToLower str2)
  let inter := words1.filter (fun w => words2.contains w)
  let uni := setOfList (words1 ++ words2)
  (inter.length : ℚ) / (uni.length : ℚ)

/-- JS truthiness of the optional description. -/
def descTruthy : Option String → Bool
  | some d => d ≠ ""
  | none => false

/-- `calculateClassSimilarity`. -/
def calculateClassSimilarity (cls1 cls2 : OntologyClass) : ℚ :=
  let s1 := stringSimilarity cls1.name cls2.name * (2/5)
  let s2 :=
    if descTruthy cls1.description && descTruthy cls2.description then
      s1 + stringSimilarity (cls1.description.getD "") (cls2.description.getD "") * (3/10)
    else s1
  let common := cls1.instances.filter (fun i => cls2.instances.contains i)
  s2 + ((common.length : ℚ) /
    max (max (cls1.instances.length : ℚ) (cls2.instances.length : ℚ)) 1) * (3/10)

/-- `classHasConnections`. -/
def classHasConnections (cls : OntologyClass) (ctx : ValidationContext) : Bool :=
  if cls.superClasses.length ≠ 0 || cls.subClasses.length ≠ 0 then true
  else
    (mapValues ctx.relationships).any
      (fun rel => rel.source = cls.id || rel.target = cls.id)

/-- `findSimilarClasses` (first three in map order; no sorting here). -/
def findSimilarClasses (cls : OntologyClass) (ctx : ValidationContext) :
    List OntologyClass :=
  (((mapValues ctx.classes).filter (fun other => ¬ other.id = cls.id)).filter
    (fun other => 1/2 < calculateClassSimilarity cls other)).take 3

/-- `validateOrphanedClasses`. -/
def validateOrphanedClasses (ctx : ValidationContext) : RuleOutput :=
  (mapValues ctx.classes).foldl
    (fun acc cls =>
      if classHasConnections cls ctx then acc
      else
        let warning : ValidationWarning :=
          { type := "orphaned_class",
            message := "Class \"" ++ cls.name ++
              "\" has no relationships or hierarchy connections",
            affectedElements := [cls.id],
            recommendation :=
              "Connect class to hierarchy or add relationships with other classes" }
        let similar := findSimilarClasses cls ctx
        let suggestions :=
          if similar.length ≠ 0 then
            [{ type := "add_relationship", confidence := 3/5,
               description := "Consider connecting \"" ++ cls.name ++
                 "\" to similar classes: " ++
                 String.intercalate ", " (similar.map (fun c => c.name)),
               impact := "medium",
               implementation := "Add semantic relationships or hierarchy connections" }]
          else []
        { acc with warnings := acc.warnings ++ [warning],
                   suggestions := acc.suggestions ++ suggestions })
    ⟨[], [], []⟩

/-- `isValidClassName`: `/^[A-Z][a-zA-Z0-9]*$/`. -/
def isValidClassName (name : String) : Bool :=
  match name.data with
  | [] => false
  | c :: rest => c.isUpper && rest.all (fun ch => ch.isUpper || ch.isLower || ch.isDigit)

/-- `isValidPropertyName`: `/^[a-z][a-zA-Z0-9]*$/`. -/
def isValidPropertyName (name : String) : Bool :=
  match name.data with
  | [] => false
  | c :: rest => c.isLower && rest.all (fun ch => ch.isUpper || ch.isLower || ch.isDigit)

/-- `validateNamingConventions`. -/
def validateNamingConventions (ctx : ValidationContext) : RuleOutput :=
  let classWarnings := (mapValues ctx.classes).foldl
    (fun ws cls =>
      if isValidClassName cls.name then ws
      else
        ws ++
          [{ type := "ambiguous_naming",
             message := "Class name \"" ++ cls.name ++
               "\" doesn't follow naming conventions",
             affectedElements := [cls.id],
             recommendation := "Use PascalCase for class names (e.g., \"ConceptName\")" }])
    []
  let propWarnings := (mapValues ctx.properties).foldl
    (fun ws prop =>
      if isValidPropertyName prop.name then ws
      else
        ws ++
          [{ type := "ambiguous_naming",
             message := "Property name \"" ++ prop.name ++
               "\" doesn't follow naming conventions",
             affectedElements := [prop.id],
             recommendation := "Use camelCase for property names (e.g., \"propertyName\")" }])
    []
  { errors := [], warnings := classWarnings ++ propWarnings, suggestions := [] }

/-- `calculateClassDepthRecursive`: each super-class branch receives a copy
of the visited set extended by the current class.  The recursion depth is
bounded by the class count, so `calculateClassDepth` supplies ample fuel. -/
def classDepthGo (classes : List (String × OntologyClass)) :
    Nat → String → List String → Nat
  | 0, _, _ => 0
  | fuel + 1, classId, visited =>
    if visited.contains classId then 0
    else
      match mapGet classes classId with
      | none => 0
      | some cls =>
        if cls.superClasses.length = 0 then 0
        else
          (cls.superClasses.foldl
            (fun acc superClassId =>
              max acc (classDepthGo classes fuel superClassId (setAdd visited classId)))
            0) + 1

/-- `calculateClassDepth`. -/
def calculateClassDepth (classes : List (String × OntologyClass)) (classId : String) : Nat :=
  classDepthGo classes (classes.length + 1) classId []

/-- `calculateHierarchyMetrics` of the validator. -/
def hierarchyShapeMetrics (ctx : ValidationContext) : Nat × ℚ × Nat :=
  let classes := mapValues ctx.classes
  let maxDepth := classes.foldl
    (fun acc cls => max acc (calculateClassDepth ctx.classes cls.id)) 0
  let totalBranching := classes.foldl
    (fun (acc : Nat) cls =>
      if cls.subClasses.length ≠ 0 then acc + cls.subClasses.length else acc) 0
  let nonLeafClasses := (classes.filter (fun cls => cls.subClasses.length ≠ 0)).length
  let avgBranchingFactor : ℚ :=
    if 0 < nonLeafClasses then (totalBranching : ℚ) / (nonLeafClasses : ℚ) else 0
  let rootClasses := (classes.filter (fun cls => cls.superClasses.length = 0)).length
  (maxDepth, avgBranchingFactor, rootClasses)

/-- `validateHierarchyStructure` (the `toFixed(1)` rendering of the
branching factor is replaced by the rational's canonical rendering; no
result below inspects those characters). -/
def validateHierarchyStructure (ctx : ValidationContext) : RuleOutput :=
  let m := hierarchyShapeMetrics ctx
  let depthWarnings :=
    if 8 < m.1 then
      [{ type := "low_coverage",
         message := "Hierarchy is very deep (" ++ toString m.1 ++ " levels)",
         affectedElements := ([] : List String),
         recommendation :=
           "Consider consolidating some intermediate levels to reduce complexity" }]
    else []
  let branchingWarnings :=
    if 12 < m.2.1 then
      [{ type := "low_coverage",
         message := "High branching factor (" ++ toString m.2.1 ++ ")",
         affectedElements := ([] : List String),
         recommendation :=
           "Consider adding intermediate categories to organize concepts better" }]
    else []
  let rootSuggestions :=
    if 5 < m.2.2 then
      [{ type := "refine_hierarchy", confidence := 7/10,
         description := "Many root classes (" ++ toString m.2.2 ++
           ") - consider adding top-level categories",
         impact := "medium",
         implementation := "Create abstract superclasses to organize root concepts" }]
    else []
  { errors := [], warnings := depthWarnings ++ branchingWarnings,
    suggestions := rootSuggestions }

/-- `validateConstraint`: the per-type checks of the source (the
cardinality check `instances.length >= 0` always holds, and the value and
logical checks are placeholders returning valid). -/
def validateConstraint (constraint : OntologyConstraint) (cls : OntologyClass) :
    Bool × String × String :=
  match constraint.type with
  | "cardinality" =>
    (decide (0 ≤ cls.instances.length),
     "Cardinality constraint validation for " ++ cls.name,
     "Ensure proper instance management")
  | "value" =>
    (true, "Value constraint validation for " ++ cls.name, "Review value constraints")
  | "logical" =>
    (true, "Logical constraint validation for " ++ cls.name, "Review logical constraints")
  | _ => (true, "Unknown constraint type", "Review constraint definition")

/-- `validateConstraints`. -/
def validateConstraints (ctx : ValidationContext) : RuleOutput :=
  (mapValues ctx.classes).foldl
    (fun acc cls =>
      cls.constraints.foldl
        (fun acc constraint =>
          let r := validateConstraint constraint cls
          if r.1 then acc
          else if constraint.severity = "error" then
            { acc with
              errors := acc.errors ++
                [{ type := "constraint_violation", severity := "major",
                   message := r.2.1, affectedElements := [cls.id, constraint.id],
                   suggestedFix := some r.2.2 }] }
          else
            { acc with
              warnings := acc.warnings ++
                [{ type := "low_coverage", message := r.2.1,
                   affectedElements := [cls.id, constraint.id],
                   recommendation := r.2.2 }] })
        acc)
    ⟨[], [], []⟩

/-- The `validationRules` registration list, in source order. -/
def validationRules : List ValidationRule :=
  [{ name := "circular_hierarchy",
     description := "Detect circular dependencies in class hierarchies",
     severity := "critical",
     validator := fun ctx => .ok (validateCircularDependencies ctx) },
   { name := "missing_superclass",
     description := "Check for references to non-existent superclasses",
     severity := "major",
     validator := fun ctx => .ok (validateSuperclassReferences ctx) },
   { name := "property_domain_range",
     description := "Validate property domain and range constraints",
     severity := "major",
     validator := fun ctx => .ok (validatePropertyConstraints ctx) },
   { name := "relationship_consistency",
     description := "Check for contradictory relationships",
     severity := "major",
     validator := fun ctx => .ok (validateRelationshipConsistency ctx) },
   { name := "orphaned_classes",
     description := "Identify isolated classes with no connections",
     severity := "minor",
     validator := fun ctx => .ok (validateOrphanedClasses ctx) },
   { name := "naming_conventions",
     description := "Check adherence to naming conventions",
     severity := "minor",
     validator := fun ctx => .ok (validateNamingConventions ctx) },
   { name := "hierarchy_depth",
     description := "Check for overly deep or shallow hierarchies",
     severity := "minor",
     validator := fun ctx => .ok (validateHierarchyStructure ctx) },
   { name := "constraint_violations",
     description := "Validate ontological constraints",
     severity := "major",
     validator := fun ctx => .ok (validateConstraints ctx) }]

/-- The error entry the rule loop synthesizes when a rule's evaluation
throws. -/
def ruleFailedError (ruleName msg : String) : ValidationError :=
  { type := "logical_inconsistency", severity := "critical",
    message := "Validation rule '" ++ ruleName ++ "' failed: " ++ msg,
    affectedElements := [],
    suggestedFix := some "Review ontology structure and fix any malformed elements" }

/-- One iteration of the rule loop, with its `try`/`catch`: a successful
rule appends its errors, warnings and suggestions; a throwing rule appends
the single synthesized critical entry. -/
def runRulesStep (ctx : ValidationContext) (acc : RuleOutput) (rule : ValidationRule) :
    RuleOutput :=
  match rule.validator ctx with
  | .ok r =>
    { errors := acc.errors ++ r.errors, warnings := acc.warnings ++ r.warnings,
      suggestions := acc.suggestions ++ r.suggestions }
  | .error msg => { acc with errors := acc.errors ++ [ruleFailedError rule.name msg] }

/-- The `for (const rule of this.validationRules)` loop. -/
def runRules (rules : List ValidationRule) (ctx : ValidationContext) : RuleOutput :=
  rules.foldl (runRulesStep ctx) ⟨[], [], []⟩

/-- `calculateCompleteness`. -/
def calculateCompleteness (ctx : ValidationContext) : ℚ :=
  (((mapValues ctx.classes).filter (fun c => c.instances.length ≠ 0)).length : ℚ) /
    max (ctx.classes.length : ℚ) 1

/-- `calculateClarity`. -/
def calculateClarity (ctx : ValidationContext) : ℚ :=
  let withDescriptions :=
    ((mapValues ctx.classes).filter (fun c => descTruthy c.description)).length +
    ((mapValues ctx.properties).filter (fun p => descTruthy p.description)).length
  (withDescriptions : ℚ) /
    max ((ctx.classes.length : ℚ) + (ctx.properties.length : ℚ)) 1

/-- `calculateCoverage`. -/
def calculateCoverage (ctx : ValidationContext) : ℚ :=
  let expectedRelationships : ℚ :=
    (ctx.classes.length : ℚ) * ((ctx.classes.length : ℚ) - 1) / 10
  min ((ctx.relationships.length : ℚ) / max expectedRelationships 1) 1

/-- `calculateValidationMetrics`. -/
def calculateValidationMetrics (ctx : ValidationContext)
    (errors : List ValidationError) (warnings : List ValidationWarning) :
    OntologyMetrics :=
  { consistency :=
      max 0 (1 - ((errors.length : ℚ) * (1/10) + (warnings.length : ℚ) * (1/20))),
    completeness := calculateCompleteness ctx,
    clarity := calculateClarity ctx,
    coverage := calculateCoverage ctx }

/-- `OntologyValidator.validateOntology` with an arbitrary rule list (the
source allows custom rules via `addCustomValidationRule`). -/
def validateOntologyWith (rules : List ValidationRule) (classes : List OntologyClass)
    (properties : List OntologyProperty) (relationships : List OntologyRelationship) :
    OntologyValidationResult :=
  let ctx := mkContext classes properties relationships
  let out := runRules rules ctx
  { valid := decide ((out.errors.filter (fun e => e.severity = "critical")).length = 0),
    errors := out.errors, warnings := out.warnings, suggestions := out.suggestions,
    metrics := calculateValidationMetrics ctx out.errors out.warnings }

/-- `OntologyValidator.validateOntology` with the registered rule battery. -/
def validateOntology (classes : List OntologyClass)
    (properties : List OntologyProperty) (relationships : List OntologyRelationship) :
    OntologyValidationResult :=
  validateOntologyWith validationRules classes properties relationships

end OntologyValidator

/-! ### Fixtures and specification-level predicates used by the claim
theorems below -/

/-- A concrete bidirectional relationship used to witness C10. -/
def relAB : OntologyRelationship :=
  { id := "a-likes-b", type := "likes", source := "a", target := "b",
    properties := [], confidence := 1/2, bidirectional := true,
    metadata := { created := "", source := "manual" } }

/-- A rule whose evaluation throws, used to witness C7 (the source admits
such rules through `addCustomValidationRule`). -/
def throwingRule : OntologyValidator.ValidationRule :=
  { name := "bad_rule", description := "always throws", severity := "critical",
    validator := fun _ => .error "boom" }

/-- A manually defined class with the given id and super classes. -/
def manualClass (id : String) (sups : List String) : OntologyClass :=
  { id := id, name := id, description := none, superClasses := sups,
    subClasses := [], properties := [], constraints := [], instances := [],
    metadata := { created := "", modified := "", confidence := 1, source := "manual" } }

set_option allowUnsafeReducibility true in
attribute [semireducible] Rat.add Rat.mul Rat.inv Rat.sub

/-- Concept fixture for the consolidation claims. -/
def conceptDogs : ExtractedConcept :=
  { name := "dogs", type := .abstract, frequency := 2, contexts := ["d"],
    confidence := 1/2 }

/-- Concept fixture for the consolidation claims. -/
def conceptMammals : ExtractedConcept :=
  { name := "mammals", type := .abstract, frequency := 2, contexts := ["d"],
    confidence := 1/2 }

/-- Document whose two sentences observe the pair (dogs, mammals) under two
different relationship types. -/
def twoTypesDoc : Tiddler :=
  { title := "d", text := "Dogs are mammals. Dogs have mammals.", tags := [] }

/-- Document observing the pair (dogs, mammals) in nine sentences. -/
def nineDoc : Tiddler :=
  { title := "d",
    text := String.intercalate " " (List.replicate 9 "dogs are mammals."),
    tags := [] }

/-- The first document of the end-to-end scenario of the specification. -/
def scenarioDoc1 : Tiddler :=
  { title := "doc1", text := "Dogs are mammals. Dogs have fur.", tags := ["animal"] }

/-- The second document of the end-to-end scenario. -/
def scenarioDoc2 : Tiddler :=
  { title := "doc2", text := "Cats are mammals.", tags := ["animal"] }

/-- An adversarial concept with empty name: its node id is the empty
string, and the JS truthiness test on a `parent` field holding `""` treats
the node as parentless. -/
def emptyNameConcept : ExtractedConcept :=
  { name := "", type := .abstract, frequency := 5, contexts := ["c1", "c2", "c3"],
    confidence := 1/2 }

/-- Concept named `a` for the C6 counterexample. -/
def conceptA : ExtractedConcept :=
  { name := "a", type := .abstract, frequency := 5, contexts := ["c1", "c2", "c3"],
    confidence := 1/2 }

/-- Concept named `z` for the C6 counterexample. -/
def conceptZ : ExtractedConcept :=
  { name := "z", type := .abstract, frequency := 5, contexts := ["c1", "c2", "c3"],
    confidence := 1/2 }

/-- An explicit is-a relationship between two named concepts. -/
def isaRel (src tgt : String) : ExtractedRelationship :=
  { source := src, target := tgt, type := "is-a", strength := 3/10, evidence := [],
    confidence := 1/2 }

/-- The qualifying sentences of a corpus, in processing order. -/
def corpusSentences (tiddlers : List Tiddler) : List String :=
  (tiddlers.map (fun t => splitIntoSentences (jsToLower t.text))).flatten

/-- Well-formedness of an `addClass` input at a given store state: fresh
id, no pre-seeded `subClasses`, and super references that resolve. -/
def WellFormedAdd (s : OntologyStore) (c : OntologyClass) : Prop :=
  c.subClasses = [] ∧ ¬ c.id ∈ mapKeys s.classes ∧
    ∀ sid ∈ c.superClasses, sid ∈ mapKeys s.classes

/-- A trace of public operations whose `addClass` steps are well formed at
the state where they execute. -/
def WfOps : OntologyStore → List StoreOp → Prop
  | _, [] => True
  | s, op :: rest =>
    (match op with
     | StoreOp.addClass c => WellFormedAdd s c
     | _ => True) ∧ WfOps (applyOp s op) rest

/-- The store invariant carrying referential symmetry. -/
structure StoreInv (s : OntologyStore) : Prop where
  keysNodup : (mapKeys s.classes).Nodup
  keyId : ∀ a A, mapGet s.classes a = some A → A.id = a
  supsClosed : ∀ a A, mapGet s.classes a = some A →
    ∀ x ∈ A.superClasses, x ∈ mapKeys s.classes
  subsClosed : ∀ a A, mapGet s.classes a = some A →
    ∀ x ∈ A.subClasses, x ∈ mapKeys s.classes
  symm : ∀ a A b B, mapGet s.classes a = some A → mapGet s.classes b = some B →
    (b ∈ A.subClasses ↔ a ∈ B.superClasses)

/-! ### Lemmas about the JS `Map` model -/

theorem mapSet_cons (p : κ × α) (rest : List (κ × α)) (k : κ) (v : α) :
    mapSet (p :: rest) k v =
      if p.1 = k then (k, v) :: rest.map (fun q => if q.1 = k then (k, v) else q)
      else p :: mapSet rest k v := by
  unfold mapSet
  by_cases hp : p.1 = k
  · simp [hp]
  · by_cases hr : rest.any (fun q => q.1 = k) <;> simp [hp, hr]

theorem mapGet_map_replace_ne (rest : List (κ × α)) (k k2 : κ) (v : α)
    (h : ¬ k2 = k) :
    mapGet (rest.map (fun q => if q.1 = k then (k, v) else q)) k2 = mapGet rest k2 := by
  induction rest with
  | nil => rfl
  | cons q qrest ih =>
    by_cases hq : q.1 = k
    · simp only [List.map_cons, if_pos hq, mapGet]
      rw [if_neg (fun hc => h hc.symm), if_neg (fun hc => h (hq ▸ hc : k = k2).symm), ih]
    · simp only [List.map_cons, if_neg hq, mapGet]
      by_cases hq2 : q.1 = k2
      · simp [hq2]
      · simp [hq2, ih]

theorem mapKeys_map_replace (rest : List (κ × α)) (k : κ) (v : α) :
    mapKeys (rest.map (fun q => if q.1 = k then (k, v) else q)) = mapKeys rest := by
  induction rest with
  | nil => rfl
  | cons q qrest ih =>
    by_cases hq : q.1 = k
    · simp only [List.map_cons, if_pos hq, mapKeys] at ih ⊢
      simp [hq, ih]
    · simp only [List.map_cons, if_neg hq, mapKeys] at ih ⊢
      simp [ih]

theorem mapGet_set_self (m : List (κ × α)) (k : κ) (v : α) :
    mapGet (mapSet m k v) k = some v := by
  induction m with
  | nil => simp [mapSet, mapGet]
  | cons p rest ih =>
    rw [mapSet_cons]
    by_cases hp : p.1 = k
    · simp [hp, mapGet]
    · simp [hp, mapGet, ih]

theorem mapGet_set_ne (m : List (κ × α)) (k k2 : κ) (v : α)
    (h : ¬ k2 = k) : mapGet (mapSet m k v) k2 = mapGet m k2 := by
  induction m with
  | nil =>
    simp [mapSet, mapGet]
    exact fun hc => h hc.symm
  | cons p rest ih =>
    rw [mapSet_cons]
    by_cases hp : p.1 = k
    · simp only [if_pos hp, mapGet]
      rw [if_neg (fun hc => h hc.symm), if_neg (hp ▸ (fun hc => h hc.symm)),
        mapGet_map_replace_ne rest k k2 v h]
    · simp only [if_neg hp, mapGet]
      by_cases hp2 : p.1 = k2
      · simp [hp2]
      · simp [hp2, ih]

theorem mapHas_eq_isSome (m : List (κ × α)) (k : κ) :
    mapHas m k = (mapGet m k).isSome := by
  induction m with
  | nil => simp [mapHas, mapGet]
  | cons p rest ih =>
    by_cases hp : p.1 = k
    · simp [mapHas, mapGet, hp]
    · simp only [mapHas, List.any_cons, mapGet, if_neg hp, decide_eq_true_eq, hp,
        Bool.false_or]
      simpa [mapHas] using ih

theorem mapKeys_set (m : List (κ × α)) (k : κ) (v : α) :
    mapKeys (mapSet m k v) = if k ∈ mapKeys m then mapKeys m else mapKeys m ++ [k] := by
  induction m with
  | nil => simp [mapSet, mapKeys]
  | cons p rest ih =>
    rw [mapSet_cons]
    by_cases hp : p.1 = k
    · have hmr := mapKeys_map_replace rest k v
      simp only [mapKeys, List.map_cons] at hmr ⊢
      rw [if_pos (by simp [hp])]
      simp [hmr, hp]
    · simp only [mapKeys, List.map_cons] at ih ⊢
      by_cases hk : k ∈ rest.map Prod.fst
      · simp [ih, hk, hp, Ne.symm hp]
      · simp [ih, hk, hp, Ne.symm hp]

theorem mapKeys_nodup_set (m : List (κ × α)) (k : κ) (v : α)
    (h : (mapKeys m).Nodup) : (mapKeys (mapSet m k v)).Nodup := by
  rw [mapKeys_set]
  by_cases hk : k ∈ mapKeys m
  · simpa [hk]
  · simp only [hk, if_false]
    rw [List.nodup_append]
    exact ⟨h, List.nodup_singleton k,
      fun x hx hx2 => hk ((List.mem_singleton.1 hx2) ▸ hx)⟩

theorem mapGet_mem {m : List (κ × α)} {k : κ} {v : α}
    (h : mapGet m k = some v) : (k, v) ∈ m := by
  induction m with
  | nil => simp [mapGet] at h
  | cons p rest ih =>
    obtain ⟨a, b⟩ := p
    by_cases hp : a = k
    · subst hp
      simp [mapGet] at h
      subst h
      exact List.mem_cons_self _ _
    · simp only [mapGet, if_neg hp] at h
      exact List.mem_cons_of_mem _ (ih h)

theorem mapGet_isSome_iff_mem_keys (m : List (κ × α)) (k : κ) :
    (mapGet m k).isSome ↔ k ∈ mapKeys m := by
  induction m with
  | nil => simp [mapGet, mapKeys]
  | cons p rest ih =>
    by_cases hp : p.1 = k
    · simp [mapGet, mapKeys, hp]
    · simp only [mapGet, if_neg hp, mapKeys, List.map_cons, List.mem_cons]
      simp only [mapKeys] at ih
      rw [ih]
      constructor
      · exact fun h => Or.inr h
      · rintro (h | h)
        · exact absurd h.symm hp
        · exact h

theorem mapGet_eq_none_of_not_mem_keys {m : List (κ × α)} {k : κ}
    (h : ¬ k ∈ mapKeys m) : mapGet m k = none := by
  rcases hm : mapGet m k with _ | v
  · rfl
  · exact absurd ((mapGet_isSome_iff_mem_keys m k).1 (by simp [hm])) h

theorem mem_keys_of_mapGet_ne {m : List (κ × α)} {k : κ}
    (h : mapGet m k ≠ none) : k ∈ mapKeys m := by
  rcases hm : mapGet m k with _ | v
  · exact absurd hm h
  · exact (mapGet_isSome_iff_mem_keys m k).1 (by simp [hm])

/-! ### Claim C1 -/

/-- C1: the claim says `OntologyManager.validateOntology` terminates and its
metrics computation does not re-enter `validateOntology` without bound.  In
the code, `validateOntology` unconditionally calls
`calculateOntologyMetrics`, whose `calculateConsistencyScore`
unconditionally calls `this.validateOntology()` again, so on every store
state — the empty store included — the recursion never bottoms out: for
every recursion-depth budget the fuel-indexed embedding returns `none`. -/
theorem validateOntology_never_returns (fuel : Nat) (s : OntologyStore) :
    validateOntologyFuel fuel s = none := by
  induction fuel with
  | zero => rfl
  | succ n ih => simp [validateOntologyFuel, ih]

/-! ### Claim C10 -/

/-- C10: `addRelationship` on a bidirectional relationship synthesizes the
mirror under the deterministic id `target-type-source`, with source and
target swapped, exactly when no relationship with that id is present after
the insertion of `r` itself; a non-bidirectional relationship only inserts
`r`. -/
theorem addRelationship_mirror (s : OntologyStore) (r : OntologyRelationship) :
    (r.bidirectional = false →
      (addRelationship s r).relationships = mapSet s.relationships r.id r) ∧
    (r.bidirectional = true →
      mapGet (mapSet s.relationships r.id r)
          (r.target ++ "-" ++ r.type ++ "-" ++ r.source) = none →
      mapGet (addRelationship s r).relationships
          (r.target ++ "-" ++ r.type ++ "-" ++ r.source) =
        some { r with id := r.target ++ "-" ++ r.type ++ "-" ++ r.source,
                      source := r.target, target := r.source }) ∧
    (r.bidirectional = true →
      ∀ x, mapGet (mapSet s.relationships r.id r)
          (r.target ++ "-" ++ r.type ++ "-" ++ r.source) = some x →
      (addRelationship s r).relationships = mapSet s.relationships r.id r) := by
  refine ⟨fun hb => ?_, fun hb hnone => ?_, fun hb x hsome => ?_⟩
  · simp [addRelationship, hb]
  · simp only [addRelationship, hb, if_true, createBidirectionalRelationship,
      mapHas_eq_isSome, hnone, Option.isSome_none, Bool.false_eq_true, if_false]
    exact mapGet_set_self _ _ _
  · simp [addRelationship, hb, createBidirectionalRelationship,
      mapHas_eq_isSome, hsome]

/-- Witness for C10: on the empty store, adding the bidirectional `relAB`
materializes the mirror `b-likes-a` with source and target swapped. -/
theorem addRelationship_mirror_witness :
    mapGet (addRelationship emptyStore relAB).relationships "b-likes-a" =
      some { relAB with id := "b-likes-a", source := "b", target := "a" } :=
  (addRelationship_mirror emptyStore relAB).2.1 rfl (by decide)

/-! ### Claims C8 and C9 (OntologyValidator result assembly and metrics) -/

/-- Bounds for the clamped ratios `a / max b 1` the metrics use. -/
theorem ratio_clamped_bounds (a b : ℚ) (ha : 0 ≤ a) (hab : a ≤ b) :
    0 ≤ a / max b 1 ∧ a / max b 1 ≤ 1 := by
  have hd : (0 : ℚ) < max b 1 := lt_of_lt_of_le one_pos (le_max_right b 1)
  constructor
  · exact div_nonneg ha (le_of_lt hd)
  · rw [div_le_one hd]
    exact le_trans hab (le_max_left b 1)

/-- C8: the result of the Validator's `validateOntology` has `valid = true`
exactly when the collected errors contain no critical-severity entry, and
its metrics record is the one `calculateValidationMetrics` computes from
the context and the collected errors and warnings, independently of
`valid`. -/
theorem validator_valid_iff_no_critical (classes : List OntologyClass)
    (properties : List OntologyProperty) (relationships : List OntologyRelationship) :
    ((OntologyValidator.validateOntology classes properties relationships).valid = true ↔
      ∀ e ∈ (OntologyValidator.validateOntology classes properties relationships).errors,
        e.severity ≠ "critical") ∧
    (OntologyValidator.validateOntology classes properties relationships).metrics =
      OntologyValidator.calculateValidationMetrics
        (OntologyValidator.mkContext classes properties relationships)
        (OntologyValidator.validateOntology classes properties relationships).errors
        (OntologyValidator.validateOntology classes properties relationships).warnings := by
  constructor
  · simp only [OntologyValidator.validateOntology, OntologyValidator.validateOntologyWith,
      decide_eq_true_eq, List.length_eq_zero, List.filter_eq_nil_iff]
  · rfl

/-- C9: each of the four metrics of the Validator's `validateOntology` lies
in the interval `[0, 1]` on every input, the empty one included; every
denominator in their computation is clamped to at least 1. -/
theorem validator_metric_bounds (classes : List OntologyClass)
    (properties : List OntologyProperty) (relationships : List OntologyRelationship) :
    let m := (OntologyValidator.validateOntology classes properties relationships).metrics
    (0 ≤ m.consistency ∧ m.consistency ≤ 1) ∧
    (0 ≤ m.completeness ∧ m.completeness ≤ 1) ∧
    (0 ≤ m.clarity ∧ m.clarity ≤ 1) ∧
    (0 ≤ m.coverage ∧ m.coverage ≤ 1) := by
  intro m
  have hm : m = OntologyValidator.calculateValidationMetrics
      (OntologyValidator.mkContext classes properties relationships)
      (OntologyValidator.validateOntology classes properties relationships).errors
      (OntologyValidator.validateOntology classes properties relationships).warnings := rfl
  rw [hm]
  set ctx := OntologyValidator.mkContext classes properties relationships
  set errs := (OntologyValidator.validateOntology classes properties relationships).errors
  set warns := (OntologyValidator.validateOntology classes properties relationships).warnings
  refine ⟨⟨?_, ?_⟩, ?_, ?_, ?_⟩
  · exact le_max_left 0 _
  · have hpen : (0 : ℚ) ≤ (errs.length : ℚ) * (1/10) + (warns.length : ℚ) * (1/20) := by
      positivity
    have : (1 : ℚ) - ((errs.length : ℚ) * (1/10) + (warns.length : ℚ) * (1/20)) ≤ 1 := by
      linarith
    exact max_le (by norm_num) this
  · have := ratio_clamped_bounds
      ((((mapValues ctx.classes).filter (fun c => c.instances.length ≠ 0)).length : ℚ))
      ((ctx.classes.length : ℚ))
      (by positivity)
      (by
        have hle := List.length_filter_le (fun c => c.instances.length ≠ 0) (mapValues ctx.classes)
        have hv : (mapValues ctx.classes).length = ctx.classes.length := by
          simp [mapValues]
        exact_mod_cast hv ▸ hle)
    exact ⟨this.1, this.2⟩
  · have := ratio_clamped_bounds
      ((((mapValues ctx.classes).filter (fun c => OntologyValidator.descTruthy c.description)).length : ℚ) +
        (((mapValues ctx.properties).filter (fun p => OntologyValidator.descTruthy p.description)).length : ℚ))
      ((ctx.classes.length : ℚ) + (ctx.properties.length : ℚ))
      (by positivity)
      (by
        have h1 := List.length_filter_le (fun c => OntologyValidator.descTruthy c.description)
          (mapValues ctx.classes)
        have h2 := List.length_filter_le (fun p => OntologyValidator.descTruthy p.description)
          (mapValues ctx.properties)
        have hv1 : (mapValues ctx.classes).length = ctx.classes.length := by simp [mapValues]
        have hv2 : (mapValues ctx.properties).length = ctx.properties.length := by
          simp [mapValues]
        rw [hv1] at h1
        rw [hv2] at h2
        have := Nat.add_le_add h1 h2
        exact_mod_cast this)
    constructor
    · have h0 := this.1
      simpa [OntologyValidator.calculateValidationMetrics, OntologyValidator.calculateClarity,
        Nat.cast_add] using h0
    · have h1 := this.2
      simpa [OntologyValidator.calculateValidationMetrics, OntologyValidator.calculateClarity,
        Nat.cast_add] using h1
  · constructor
    · apply le_min
      · apply div_nonneg
        · positivity
        · exact le_trans zero_le_one (le_max_right _ 1)
      · norm_num
    · exact min_le_right _ 1

/-! ### Claim C7 (rule failures are isolated) -/

theorem runRules_from_acc (rules : List OntologyValidator.ValidationRule)
    (ctx : OntologyValidator.ValidationContext) (acc : OntologyValidator.RuleOutput) :
    rules.foldl (OntologyValidator.runRulesStep ctx) acc =
    { errors := acc.errors ++ (OntologyValidator.runRules rules ctx).errors,
      warnings := acc.warnings ++ (OntologyValidator.runRules rules ctx).warnings,
      suggestions := acc.suggestions ++ (OntologyValidator.runRules rules ctx).suggestions } := by
  induction rules generalizing acc with
  | nil => simp [OntologyValidator.runRules]
  | cons rule rest ih =>
    simp only [OntologyValidator.runRules, List.foldl_cons]
    rw [ih, ih]
    rcases hv : rule.validator ctx with msg | r <;>
      simp [OntologyValidator.runRulesStep, hv, List.append_assoc]

/-- C7: if a registered rule's evaluation throws, the loop converts it into
exactly one critical error entry naming that rule, every rule before and
after it still contributes its own results in order, and the caller still
receives the full report with merged errors, warnings, suggestions and the
computed metrics. -/
theorem validator_rule_isolation (pre post : List OntologyValidator.ValidationRule)
    (r : OntologyValidator.ValidationRule) (classes : List OntologyClass)
    (properties : List OntologyProperty) (relationships : List OntologyRelationship)
    (msg : String)
    (h : r.validator (OntologyValidator.mkContext classes properties relationships) =
      .error msg) :
    (OntologyValidator.validateOntologyWith (pre ++ r :: post) classes properties
        relationships).errors =
      (OntologyValidator.runRules pre
        (OntologyValidator.mkContext classes properties relationships)).errors ++
      [OntologyValidator.ruleFailedError r.name msg] ++
      (OntologyValidator.runRules post
        (OntologyValidator.mkContext classes properties relationships)).errors ∧
    (OntologyValidator.validateOntologyWith (pre ++ r :: post) classes properties
        relationships).warnings =
      (OntologyValidator.runRules pre
        (OntologyValidator.mkContext classes properties relationships)).warnings ++
      (OntologyValidator.runRules post
        (OntologyValidator.mkContext classes properties relationships)).warnings ∧
    (OntologyValidator.validateOntologyWith (pre ++ r :: post) classes properties
        relationships).suggestions =
      (OntologyValidator.runRules pre
        (OntologyValidator.mkContext classes properties relationships)).suggestions ++
      (OntologyValidator.runRules post
        (OntologyValidator.mkContext classes properties relationships)).suggestions ∧
    (OntologyValidator.validateOntologyWith (pre ++ r :: post) classes properties
        relationships).metrics =
      OntologyValidator.calculateValidationMetrics
        (OntologyValidator.mkContext classes properties relationships)
        (OntologyValidator.validateOntologyWith (pre ++ r :: post) classes properties
          relationships).errors
        (OntologyValidator.validateOntologyWith (pre ++ r :: post) classes properties
          relationships).warnings ∧
    (OntologyValidator.ruleFailedError r.name msg).severity = "critical" := by
  set ctx := OntologyValidator.mkContext classes properties relationships with hctx
  have hrun : OntologyValidator.runRules (pre ++ r :: post) ctx =
      { errors := (OntologyValidator.runRules pre ctx).errors ++
          [OntologyValidator.ruleFailedError r.name msg] ++
          (OntologyValidator.runRules post ctx).errors,
        warnings := (OntologyValidator.runRules pre ctx).warnings ++
          (OntologyValidator.runRules post ctx).warnings,
        suggestions := (OntologyValidator.runRules pre ctx).suggestions ++
          (OntologyValidator.runRules post ctx).suggestions } := by
    unfold OntologyValidator.runRules
    rw [List.foldl_append, List.foldl_cons]
    have hstep : OntologyValidator.runRulesStep ctx
        (pre.foldl (OntologyValidator.runRulesStep ctx) ⟨[], [], []⟩) r =
        { errors := (OntologyValidator.runRules pre ctx).errors ++
            [OntologyValidator.ruleFailedError r.name msg],
          warnings := (OntologyValidator.runRules pre ctx).warnings,
          suggestions := (OntologyValidator.runRules pre ctx).suggestions } := by
      unfold OntologyValidator.runRulesStep
      rw [h]
      rfl
    rw [hstep, runRules_from_acc]
    simp [OntologyValidator.runRules, List.append_assoc]
  refine ⟨?_, ?_, ?_, rfl, rfl⟩
  · show (OntologyValidator.runRules (pre ++ r :: post) ctx).errors = _
    rw [hrun]
  · show (OntologyValidator.runRules (pre ++ r :: post) ctx).warnings = _
    rw [hrun]
  · show (OntologyValidator.runRules (pre ++ r :: post) ctx).suggestions = _
    rw [hrun]

/-- Witness for C7: running the battery consisting of the single throwing
rule on the empty input yields exactly the one critical rule-failure entry. -/
theorem validator_rule_isolation_witness :
    (OntologyValidator.validateOntologyWith [throwingRule] [] [] []).errors =
      [OntologyValidator.ruleFailedError "bad_rule" "boom"] ∧
    (OntologyValidator.ruleFailedError "bad_rule" "boom").severity = "critical" := by
  have h := validator_rule_isolation [] [] throwingRule [] [] [] "boom" rfl
  refine ⟨?_, h.2.2.2.2⟩
  have h1 := h.1
  simpa [OntologyValidator.runRules] using h1

/-! ### Claim C2 (store acyclicity): counterexample and amended claim -/

/-- Counterexample to C2: from the empty store, `addClass A (super B)` then
`addClass B (super A)` is accepted — the second call changes the store
rather than being rejected — and afterwards the `superClasses` graph
contains the directed cycle `A → B → A`. -/
theorem addClass_cycle_accepted :
    ((mapGet (addClass (addClass emptyStore (manualClass "A" ["B"]))
        (manualClass "B" ["A"])).classes "A").map (fun c => c.superClasses) =
      some ["B"]) ∧
    ((mapGet (addClass (addClass emptyStore (manualClass "A" ["B"]))
        (manualClass "B" ["A"])).classes "B").map (fun c => c.superClasses) =
      some ["A"]) ∧
    addClass (addClass emptyStore (manualClass "A" ["B"])) (manualClass "B" ["A"]) ≠
      addClass emptyStore (manualClass "A" ["B"]) := by
  refine ⟨by decide, by decide, by decide⟩

/-- C2 as amended: `addClass` performs no cycle check, so a cycle-closing
insertion is accepted; the resulting `superClasses` cycle is instead
reported by the store's validation-time cycle detection as a critical
`circular_dependency` error naming the cycle. -/
theorem addClass_cycle_reported :
    (detectCircularDependencies (addClass (addClass emptyStore (manualClass "A" ["B"]))
        (manualClass "B" ["A"]))).map
      (fun e => (e.type, e.severity, e.affectedElements)) =
      [("circular_dependency", "critical", ["A", "B", "A"])] := by
  decide

/-! ### Claim C3 (referential symmetry): counterexample -/

/-- Counterexample to C3: add `A` with super class `B` while `B` is absent,
then add `B` itself.  Both classes are now present, `B` is in
`A.superClasses`, but `A` is not in `B.subClasses` — the inverse-reference
invariant does not hold in this reachable state. -/
theorem subClasses_not_inverse :
    ((mapGet (addClass (addClass emptyStore (manualClass "A" ["B"]))
        (manualClass "B" [])).classes "A").map (fun c => c.superClasses) =
      some ["B"]) ∧
    ((mapGet (addClass (addClass emptyStore (manualClass "A" ["B"]))
        (manualClass "B" [])).classes "B").map (fun c => c.subClasses) =
      some []) := by
  refine ⟨by decide, by decide⟩

/-! ### Claim C4 (relationship consolidation): counterexample -/

/-- Counterexample to C4: the corpus `twoTypesDoc` observes the distinct
triples (dogs, is-a, mammals) and (dogs, has-a, mammals) in one sentence
each.  The claim requires two consolidated relationships, each of strength
`min(1, 0.3) = 0.3` with one evidence entry; the code merges them into a
single relationship keyed by the unordered concept pair, of strength `0.4`
with two evidence entries.  (On `nineDoc` the strength `0.3 + 0.1 × 8 =
1.1` also escapes the claimed `min` cap, see the amended theorem.) -/
theorem extractRelationships_merges_distinct_triples :
    (extractRelationships [twoTypesDoc] [conceptDogs, conceptMammals]).map
      (fun r => (r.source, r.target, r.type, r.strength, r.evidence.length)) =
    [("dogs", "mammals", "is-a", 2/5, 2)] := by
  decide

/-! ### Claim C5 (end-to-end scenario): counterexample -/

/-- Counterexample to C5: on the scenario corpus, concept extraction yields
the names `dogs`, `mammals`, `animal` — the plural surface forms, with
`cats` (frequency 1) and `fur` (frequency 1) dropped by the `frequency > 1`
filter — not the claimed set `{dog, cat, mammal, fur, animal}`; in
particular no concept named `cat` (or `dog`) exists, so no `(cat, mammal)`
relationship or `cat` hierarchy node can follow. -/
theorem scenario_concepts_differ :
    (extractConcepts [scenarioDoc1, scenarioDoc2]).map (fun c => c.name) =
      ["dogs", "mammals", "animal"] := by
  decide

/-- C5 as amended, the scenario as the code actually runs it: on the
corpus of `scenarioDoc1` and `scenarioDoc2`, (1) concept extraction yields
the concepts `dogs`, `mammals`, `animal`, each with frequency 2 (so the
mammal concept, in its plural surface form, does have frequency at least
2); (2) relationship extraction yields exactly one relationship, the is-a
relationship (dogs, mammals) — no (cat, mammal) relationship can exist
because no `cat` concept survives extraction; (3) hierarchy building
places `dogs` as the only child of `mammals`, with `mammals`, `animal` and
the synthesized kind parent `abstract` as roots; and (4) validating the
classes derived from the built hierarchy reports `valid = true` with zero
critical errors. -/
theorem scenario_amended :
    ((extractConcepts [scenarioDoc1, scenarioDoc2]).map
        (fun c => (c.name, c.frequency)) =
      [("dogs", 2), ("mammals", 2), ("animal", 2)]) ∧
    ((extractRelationships [scenarioDoc1, scenarioDoc2]
        (extractConcepts [scenarioDoc1, scenarioDoc2])).map
      (fun r => (r.source, r.target, r.type)) = [("dogs", "mammals", "is-a")]) ∧
    ((mapGet (buildHierarchyState (extractConcepts [scenarioDoc1, scenarioDoc2])
        (extractRelationships [scenarioDoc1, scenarioDoc2]
          (extractConcepts [scenarioDoc1, scenarioDoc2]))).hierarchy "dogs").map
      (fun n => n.parent) = some (some "mammals")) ∧
    ((mapGet (buildHierarchyState (extractConcepts [scenarioDoc1, scenarioDoc2])
        (extractRelationships [scenarioDoc1, scenarioDoc2]
          (extractConcepts [scenarioDoc1, scenarioDoc2]))).hierarchy "mammals").map
      (fun n => n.children) = some ["dogs"]) ∧
    ((buildHierarchyState (extractConcepts [scenarioDoc1, scenarioDoc2])
        (extractRelationships [scenarioDoc1, scenarioDoc2]
          (extractConcepts [scenarioDoc1, scenarioDoc2]))).rootNodes =
      ["mammals", "animal", "abstract"]) ∧
    ((OntologyValidator.validateOntology
        (toOntologyClasses (buildHierarchyState
          (extractConcepts [scenarioDoc1, scenarioDoc2])
          (extractRelationships [scenarioDoc1, scenarioDoc2]
            (extractConcepts [scenarioDoc1, scenarioDoc2])))) [] []).valid = true) ∧
    (((OntologyValidator.validateOntology
        (toOntologyClasses (buildHierarchyState
          (extractConcepts [scenarioDoc1, scenarioDoc2])
          (extractRelationships [scenarioDoc1, scenarioDoc2]
            (extractConcepts [scenarioDoc1, scenarioDoc2])))) [] []).errors.filter
      (fun e => e.severity = "critical")).length = 0) := by
  refine ⟨by decide, by decide, by decide, by decide, by decide, by decide, by decide⟩

/-! ### Claim C6 (hierarchy forest): counterexample -/

/-- Counterexample to C6: with a concept whose name is empty, the empty
node id defeats the truthiness guards — a node whose `parent` is `""` is
treated as parentless and the ancestor walk stops at it — so the three is-a
relationships close the directed parent cycle `a → "" → z → a` inside
the structure `buildHierarchy` produces, and each of the three nodes also
sits in another node's `children`. -/
theorem buildHierarchy_forest_fails :
    ((mapGet (buildHierarchyState [emptyNameConcept, conceptA, conceptZ]
        [isaRel "a" "", isaRel "z" "a", isaRel "" "z"]).hierarchy "a").map
      (fun n => n.parent) = some (some "")) ∧
    ((mapGet (buildHierarchyState [emptyNameConcept, conceptA, conceptZ]
        [isaRel "a" "", isaRel "z" "a", isaRel "" "z"]).hierarchy "").map
      (fun n => n.parent) = some (some "z")) ∧
    ((mapGet (buildHierarchyState [emptyNameConcept, conceptA, conceptZ]
        [isaRel "a" "", isaRel "z" "a", isaRel "" "z"]).hierarchy "z").map
      (fun n => n.parent) = some (some "a")) := by
  refine ⟨by decide, by decide, by decide⟩

/-! ### Claim C4: amended consolidation theorem -/

theorem foldl_sentences_flatten (names : List String) (ts : List Tiddler)
    (init : List ExtractedRelationship) :
    ts.foldl
      (fun rels t =>
        (splitIntoSentences (jsToLower t.text)).foldl (relSentenceStep names) rels)
      init =
    ((ts.map (fun t => splitIntoSentences (jsToLower t.text))).flatten).foldl
      (relSentenceStep names) init := by
  induction ts generalizing init with
  | nil => rfl
  | cons t rest ih =>
    simp only [List.foldl_cons, List.map_cons, List.flatten_cons, List.foldl_append]
    exact ih _

theorem extractRelationshipsCore_eq_sentences_fold (tiddlers : List Tiddler)
    (concepts : List ExtractedConcept) :
    extractRelationshipsCore tiddlers concepts =
      (corpusSentences tiddlers).foldl
        (relSentenceStep (setOfList (concepts.map (fun c => c.name)))) [] := by
  unfold extractRelationshipsCore corpusSentences
  exact foldl_sentences_flatten _ tiddlers []

theorem relSentenceStep_empty (names : List String) (a b s : String)
    (hf : names.filter (fun n => jsIncludes s n) = [a, b]) :
    relSentenceStep names [] s =
      [{ source := a, target := b, type := identifyRelationshipType s,
         strength := 3/10, evidence := [jsTake s 100],
         confidence := calculateRelationshipConfidence s a b }] := by
  unfold relSentenceStep
  rw [hf]
  simp [orderedPairs, observePair]

theorem relSentenceStep_existing (names : List String) (a b s : String)
    (r : ExtractedRelationship) (hf : names.filter (fun n => jsIncludes s n) = [a, b])
    (hs : r.source = a) (ht : r.target = b) :
    relSentenceStep names [r] s =
      [{ r with strength := r.strength + 1/10,
                evidence := r.evidence ++ [jsTake s 100] }] := by
  unfold relSentenceStep
  rw [hf]
  simp only [List.length_cons, List.length_nil]
  rw [if_pos (by norm_num)]
  simp [orderedPairs, observePair, updateExistingRel, hs, ht]

theorem relSentenceStep_fold_invariant (names : List String) (a b : String)
    (sents : List String)
    (hf : ∀ s ∈ sents, names.filter (fun n => jsIncludes s n) = [a, b])
    (r : ExtractedRelationship) (hs : r.source = a) (ht : r.target = b) :
    sents.foldl (relSentenceStep names) [r] =
      [{ r with strength := r.strength + (sents.length : ℚ) * (1/10),
                evidence := r.evidence ++ sents.map (fun s => jsTake s 100) }] := by
  induction sents generalizing r with
  | nil =>
    simp
  | cons s rest ih =>
    simp only [List.foldl_cons]
    rw [relSentenceStep_existing names a b s r (hf s (List.mem_cons_self s rest)) hs ht]
    rw [ih (fun s2 h2 => hf s2 (List.mem_cons_of_mem s h2))
      { r with strength := r.strength + 1/10,
               evidence := r.evidence ++ [jsTake s 100] } hs ht]
    have hst : r.strength + 1/10 + (rest.length : ℚ) * (1/10) =
        r.strength + ((rest.length : ℚ) + 1) * (1/10) := by ring
    have hev : (r.evidence ++ [jsTake s 100]) ++ rest.map (fun s => jsTake s 100) =
        r.evidence ++ (jsTake s 100 :: rest.map (fun s => jsTake s 100)) := by
      simp
    simp only [List.length_cons, List.map_cons, Nat.cast_add, Nat.cast_one, hst, hev]

/-- C4 as amended: consolidation keys on the unordered concept pair and
ignores the relationship type, and the accumulated strength is not capped
at 1.  Concretely: whenever the deduplicated concept-name table is the pair
`[a, b]` and every qualifying sentence of the corpus contains both names
(so every sentence observes that pair, under whatever per-sentence
relationship type), relationship extraction returns exactly one
consolidated relationship for the pair, with strength `0.3 + 0.1 × (n − 1)`
(uncapped) and an evidence list of length `n`, where `n ≥ 1` is the number
of qualifying sentences; pairs with final strength at or below the 0.2
floor would be dropped, which for this base strength never happens. -/
theorem extractRelationships_consolidated_pair (tiddlers : List Tiddler)
    (concepts : List ExtractedConcept) (a b : String)
    (hnames : setOfList (concepts.map (fun c => c.name)) = [a, b])
    (hf : ∀ s ∈ corpusSentences tiddlers,
      ([a, b]).filter (fun n => jsIncludes s n) = [a, b])
    (hne : corpusSentences tiddlers ≠ []) :
    (extractRelationships tiddlers concepts).map
      (fun r => (r.source, r.target, r.strength, r.evidence.length)) =
    [(a, b, 3/10 + (((corpusSentences tiddlers).length : ℚ) - 1) * (1/10),
      (corpusSentences tiddlers).length)] := by
  unfold extractRelationships
  rw [extractRelationshipsCore_eq_sentences_fold, hnames]
  rcases hsents : corpusSentences tiddlers with _ | ⟨s0, rest⟩
  · exact absurd hsents hne
  · rw [hsents] at hf
    rw [List.foldl_cons,
      relSentenceStep_empty [a, b] a b s0 (hf s0 (List.mem_cons_self _ _)),
      relSentenceStep_fold_invariant [a, b] a b rest
        (fun s2 h2 => hf s2 (List.mem_cons_of_mem s0 h2))
        { source := a, target := b, type := identifyRelationshipType s0,
          strength := 3/10, evidence := [jsTake s0 100],
          confidence := calculateRelationshipConfidence s0 a b } rfl rfl]
    have hlen : (0 : ℚ) ≤ (rest.length : ℚ) := by positivity
    rw [List.filter_cons, if_pos (by simp only [decide_eq_true_eq]; linarith)]
    simp only [List.filter_nil, sortByStrengthDesc, stableSortBy, List.foldl_cons,
      List.foldl_nil, insertBy, List.map_cons, List.map_nil, List.length_cons,
      List.length_append, List.length_map, List.length_nil, Prod.mk.injEq,
      List.cons.injEq, and_true, true_and]
    constructor
    · push_cast
      ring
    · omega

/-- Witness for the amended C4 theorem on the two-sentence corpus
`twoTypesDoc`: one consolidated relationship of strength `0.3 + 0.1` with
two evidence entries. -/
theorem extractRelationships_consolidated_pair_witness :
    (extractRelationships [twoTypesDoc] [conceptDogs, conceptMammals]).map
      (fun r => (r.source, r.target, r.strength, r.evidence.length)) =
    [("dogs", "mammals",
      3/10 + (((corpusSentences [twoTypesDoc]).length : ℚ) - 1) * (1/10),
      (corpusSentences [twoTypesDoc]).length)] :=
  extractRelationships_consolidated_pair [twoTypesDoc] [conceptDogs, conceptMammals]
    "dogs" "mammals" (by decide) (by decide) (by decide)

/-! ### Claim C3: amended referential-symmetry invariant -/

theorem mapGet_delete (m : List (κ × α)) (k x : κ) :
    mapGet (mapDelete m k) x = if x = k then none else mapGet m x := by
  induction m with
  | nil => simp [mapDelete, mapGet]
  | cons p rest ih =>
    simp only [mapDelete, List.filter_cons] at ih ⊢
    by_cases hp : p.1 = k
    · rw [if_neg (by simp [hp]), ih]
      by_cases hx : x = k
      · simp [hx]
      · rw [if_neg hx, if_neg hx]
        simp only [mapGet]
        rw [if_neg (fun hc : p.1 = x => hx (hc ▸ hp))]
    · rw [if_pos (by simp [hp])]
      simp only [mapGet]
      by_cases hpx : p.1 = x
      · have hxk : ¬ x = k := fun hc => hp (by rw [hpx, hc])
        rw [if_pos hpx, if_neg hxk, if_pos hpx]
      · rw [if_neg hpx, if_neg hpx, ih]

theorem mapKeys_delete (m : List (κ × α)) (k : κ) :
    mapKeys (mapDelete m k) = (mapKeys m).filter (fun x => ¬ x = k) := by
  unfold mapDelete mapKeys
  induction m with
  | nil => rfl
  | cons p rest ih =>
    simp only [List.filter_cons, List.map_cons]
    by_cases hp : p.1 = k
    · rw [if_neg (by simp [hp]), if_neg (by simp [hp]), ih]
    · rw [if_pos (by simp [hp])]
      simp only [List.map_cons]
      rw [if_pos (by simp [hp]), ih]

theorem mapKeys_nodup_delete (m : List (κ × α)) (k : κ)
    (h : (mapKeys m).Nodup) : (mapKeys (mapDelete m k)).Nodup := by
  rw [mapKeys_delete]
  exact h.filter _

theorem updateClassHierarchy_go (c : OntologyClass) (L : List String)
    (m : List (String × OntologyClass)) :
    (mapKeys (L.foldl
      (fun m superClassId =>
        match mapGet m superClassId with
        | some superClass =>
          if superClass.subClasses.contains c.id then m
          else
            mapSet m superClassId
              { superClass with subClasses := superClass.subClasses ++ [c.id] }
        | none => m) m) = mapKeys m) ∧
    (∀ x A, mapGet m x = some A →
      ∃ A2, mapGet (L.foldl
        (fun m superClassId =>
          match mapGet m superClassId with
          | some superClass =>
            if superClass.subClasses.contains c.id then m
            else
              mapSet m superClassId
                { superClass with subClasses := superClass.subClasses ++ [c.id] }
          | none => m) m) x = some A2 ∧
        A2.id = A.id ∧ A2.superClasses = A.superClasses ∧
        (∀ y, y ∈ A2.subClasses ↔ y ∈ A.subClasses ∨ (y = c.id ∧ x ∈ L))) := by
  induction L generalizing m with
  | nil =>
    refine ⟨rfl, fun x A hx => ⟨A, hx, rfl, rfl, fun y => by simp⟩⟩
  | cons sid rest ih =>
    simp only [List.foldl_cons]
    rcases hsid : mapGet m sid with _ | sup
    · simp only [hsid]
      obtain ⟨ihk, ihg⟩ := ih m
      refine ⟨ihk, fun x A hx => ?_⟩
      obtain ⟨A2, h2, hid, hsup, hiff⟩ := ihg x A hx
      refine ⟨A2, h2, hid, hsup, fun y => ?_⟩
      rw [hiff y]
      have hxsid : ¬ x = sid := by
        intro h
        rw [h, hsid] at hx
        cases hx
      simp only [List.mem_cons]
      tauto
    · simp only [hsid]
      by_cases hc : sup.subClasses.contains c.id
      · rw [if_pos hc]
        obtain ⟨ihk, ihg⟩ := ih m
        refine ⟨ihk, fun x A hx => ?_⟩
        obtain ⟨A2, h2, hid, hsup2, hiff⟩ := ihg x A hx
        refine ⟨A2, h2, hid, hsup2, fun y => ?_⟩
        rw [hiff y]
        have hcase : x = sid → y = c.id → y ∈ A.subClasses := by
          intro hx2 hy
          rw [hx2, hsid] at hx
          obtain rfl : sup = A := by injection hx
          rw [hy]
          simpa using hc
        simp only [List.mem_cons]
        tauto
      · rw [if_neg hc]
        set m2 := mapSet m sid { sup with subClasses := sup.subClasses ++ [c.id] } with hm2
        obtain ⟨ihk, ihg⟩ := ih m2
        have hkeys2 : mapKeys m2 = mapKeys m := by
          rw [hm2, mapKeys_set, if_pos]
          exact (mapGet_isSome_iff_mem_keys m sid).1 (by simp [hsid])
        refine ⟨by rw [ihk, hkeys2], fun x A hx => ?_⟩
        by_cases hxs : x = sid
        · subst hxs
          rw [hx] at hsid
          obtain rfl : A = sup := by injection hsid
          obtain ⟨A2, h2, hid, hsup2, hiff⟩ := ihg x
            { A with subClasses := A.subClasses ++ [c.id] }
            (by rw [hm2]; exact mapGet_set_self m x _)
          refine ⟨A2, h2, hid, hsup2, fun y => ?_⟩
          rw [hiff y]
          simp only [List.mem_append, List.mem_cons, List.mem_singleton,
            List.not_mem_nil, or_false, true_or, eq_self_iff_true, and_true, true_and]
          tauto
        · obtain ⟨A2, h2, hid, hsup2, hiff⟩ := ihg x A
            (by rw [hm2, mapGet_set_ne m sid x _ hxs]; exact hx)
          refine ⟨A2, h2, hid, hsup2, fun y => ?_⟩
          rw [hiff y]
          simp only [List.mem_cons]
          tauto

theorem updateClassHierarchy_keys (m : List (String × OntologyClass))
    (c : OntologyClass) : mapKeys (updateClassHierarchy m c) = mapKeys m :=
  (updateClassHierarchy_go c c.superClasses m).1

theorem updateClassHierarchy_get (m : List (String × OntologyClass))
    (c : OntologyClass) (x : String) (A : OntologyClass)
    (hx : mapGet m x = some A) :
    ∃ A2, mapGet (updateClassHierarchy m c) x = some A2 ∧
      A2.id = A.id ∧ A2.superClasses = A.superClasses ∧
      (∀ y, y ∈ A2.subClasses ↔ y ∈ A.subClasses ∨ (y = c.id ∧ x ∈ c.superClasses)) :=
  (updateClassHierarchy_go c c.superClasses m).2 x A hx

theorem updateClassHierarchy_get_none (m : List (String × OntologyClass))
    (c : OntologyClass) (x : String) (hx : mapGet m x = none) :
    mapGet (updateClassHierarchy m c) x = none := by
  apply mapGet_eq_none_of_not_mem_keys
  rw [updateClassHierarchy_keys]
  intro hmem
  rw [← mapGet_isSome_iff_mem_keys, hx] at hmem
  simp at hmem

theorem removeFromSupers_go (c : OntologyClass) (L : List String)
    (m : List (String × OntologyClass)) :
    (mapKeys (L.foldl
      (fun m superClassId =>
        match mapGet m superClassId with
        | some superClass =>
          mapSet m superClassId
            { superClass with
              subClasses := superClass.subClasses.filter (fun id => ¬ id = c.id) }
        | none => m) m) = mapKeys m) ∧
    (∀ x A, mapGet m x = some A →
      ∃ A2, mapGet (L.foldl
        (fun m superClassId =>
          match mapGet m superClassId with
          | some superClass =>
            mapSet m superClassId
              { superClass with
                subClasses := superClass.subClasses.filter (fun id => ¬ id = c.id) }
          | none => m) m) x = some A2 ∧
        A2.id = A.id ∧ A2.superClasses = A.superClasses ∧
        (∀ y, y ∈ A2.subClasses ↔ y ∈ A.subClasses ∧ ¬ (y = c.id ∧ x ∈ L))) := by
  induction L generalizing m with
  | nil =>
    refine ⟨rfl, fun x A hx => ⟨A, hx, rfl, rfl, fun y => by simp⟩⟩
  | cons sid rest ih =>
    simp only [List.foldl_cons]
    rcases hsid : mapGet m sid with _ | sup
    · simp only [hsid]
      obtain ⟨ihk, ihg⟩ := ih m
      refine ⟨ihk, fun x A hx => ?_⟩
      obtain ⟨A2, h2, hid, hsup, hiff⟩ := ihg x A hx
      refine ⟨A2, h2, hid, hsup, fun y => ?_⟩
      rw [hiff y]
      have hxsid : ¬ x = sid := by
        intro h
        rw [h, hsid] at hx
        cases hx
      simp only [List.mem_cons]
      tauto
    · simp only [hsid]
      set m2 := mapSet m sid
        { sup with subClasses := sup.subClasses.filter (fun id => ¬ id = c.id) } with hm2
      obtain ⟨ihk, ihg⟩ := ih m2
      have hkeys2 : mapKeys m2 = mapKeys m := by
        rw [hm2, mapKeys_set, if_pos]
        exact (mapGet_isSome_iff_mem_keys m sid).1 (by simp [hsid])
      refine ⟨by rw [ihk, hkeys2], fun x A hx => ?_⟩
      by_cases hxs : x = sid
      · subst hxs
        rw [hx] at hsid
        obtain rfl : A = sup := by injection hsid
        obtain ⟨A2, h2, hid, hsup2, hiff⟩ := ihg x
          { A with subClasses := A.subClasses.filter (fun id => ¬ id = c.id) }
          (by rw [hm2]; exact mapGet_set_self m x _)
        refine ⟨A2, h2, hid, hsup2, fun y => ?_⟩
        rw [hiff y]
        simp only [List.mem_filter, List.mem_cons, decide_eq_true_eq, eq_self_iff_true,
          true_or, true_and]
        tauto
      · obtain ⟨A2, h2, hid, hsup2, hiff⟩ := ihg x A
          (by rw [hm2, mapGet_set_ne m sid x _ hxs]; exact hx)
        refine ⟨A2, h2, hid, hsup2, fun y => ?_⟩
        rw [hiff y]
        simp only [List.mem_cons]
        tauto

theorem removeFromSubs_go (c : OntologyClass) (L : List String)
    (m : List (String × OntologyClass)) :
    (mapKeys (L.foldl
      (fun m subClassId =>
        match mapGet m subClassId with
        | some subClass =>
          mapSet m subClassId
            { subClass with
              superClasses := subClass.superClasses.filter (fun id => ¬ id = c.id) }
        | none => m) m) = mapKeys m) ∧
    (∀ x A, mapGet m x = some A →
      ∃ A2, mapGet (L.foldl
        (fun m subClassId =>
          match mapGet m subClassId with
          | some subClass =>
            mapSet m subClassId
              { subClass with
                superClasses := subClass.superClasses.filter (fun id => ¬ id = c.id) }
          | none => m) m) x = some A2 ∧
        A2.id = A.id ∧ A2.subClasses = A.subClasses ∧
        (∀ y, y ∈ A2.superClasses ↔ y ∈ A.superClasses ∧ ¬ (y = c.id ∧ x ∈ L))) := by
  induction L generalizing m with
  | nil =>
    refine ⟨rfl, fun x A hx => ⟨A, hx, rfl, rfl, fun y => by simp⟩⟩
  | cons sid rest ih =>
    simp only [List.foldl_cons]
    rcases hsid : mapGet m sid with _ | sub
    · simp only [hsid]
      obtain ⟨ihk, ihg⟩ := ih m
      refine ⟨ihk, fun x A hx => ?_⟩
      obtain ⟨A2, h2, hid, hsub, hiff⟩ := ihg x A hx
      refine ⟨A2, h2, hid, hsub, fun y => ?_⟩
      rw [hiff y]
      have hxsid : ¬ x = sid := by
        intro h
        rw [h, hsid] at hx
        cases hx
      simp only [List.mem_cons]
      tauto
    · simp only [hsid]
      set m2 := mapSet m sid
        { sub with superClasses := sub.superClasses.filter (fun id => ¬ id = c.id) } with hm2
      obtain ⟨ihk, ihg⟩ := ih m2
      have hkeys2 : mapKeys m2 = mapKeys m := by
        rw [hm2, mapKeys_set, if_pos]
        exact (mapGet_isSome_iff_mem_keys m sid).1 (by simp [hsid])
      refine ⟨by rw [ihk, hkeys2], fun x A hx => ?_⟩
      by_cases hxs : x = sid
      · subst hxs
        rw [hx] at hsid
        obtain rfl : A = sub := by injection hsid
        obtain ⟨A2, h2, hid, hsub2, hiff⟩ := ihg x
          { A with superClasses := A.superClasses.filter (fun id => ¬ id = c.id) }
          (by rw [hm2]; exact mapGet_set_self m x _)
        refine ⟨A2, h2, hid, hsub2, fun y => ?_⟩
        rw [hiff y]
        simp only [List.mem_filter, List.mem_cons, decide_eq_true_eq, eq_self_iff_true,
          true_or, true_and]
        tauto
      · obtain ⟨A2, h2, hid, hsub2, hiff⟩ := ihg x A
          (by rw [hm2, mapGet_set_ne m sid x _ hxs]; exact hx)
        refine ⟨A2, h2, hid, hsub2, fun y => ?_⟩
        rw [hiff y]
        simp only [List.mem_cons]
        tauto

theorem StoreInv_addClass (s : OntologyStore) (c : OntologyClass)
    (hinv : StoreInv s) (hwf : WellFormedAdd s c) : StoreInv (addClass s c) := by
  obtain ⟨hsub0, hfresh, hsups⟩ := hwf
  have hcidne : ∀ x ∈ mapKeys s.classes, ¬ x = c.id := by
    intro x hx hc
    exact hfresh (hc ▸ hx)
  set m1 := mapSet s.classes c.id c with hm1
  have hkeys1 : mapKeys m1 = mapKeys s.classes ++ [c.id] := by
    rw [hm1, mapKeys_set, if_neg hfresh]
  have hget1self : mapGet m1 c.id = some c := hm1 ▸ mapGet_set_self s.classes c.id c
  have hget1ne : ∀ x, ¬ x = c.id → mapGet m1 x = mapGet s.classes x := fun x hx =>
    hm1 ▸ mapGet_set_ne s.classes c.id x c hx
  have hcls : (addClass s c).classes = updateClassHierarchy m1 c := rfl
  have hkeysF : mapKeys (addClass s c).classes = mapKeys s.classes ++ [c.id] := by
    rw [hcls, updateClassHierarchy_keys, hkeys1]
  -- transfer from the final map back to m1
  have hback : ∀ x A2, mapGet (addClass s c).classes x = some A2 →
      ∃ A, mapGet m1 x = some A ∧ A2.id = A.id ∧ A2.superClasses = A.superClasses ∧
        (∀ y, y ∈ A2.subClasses ↔ y ∈ A.subClasses ∨ (y = c.id ∧ x ∈ c.superClasses)) := by
    intro x A2 hx
    rcases h1 : mapGet m1 x with _ | A
    · rw [hcls, updateClassHierarchy_get_none m1 c x h1] at hx
      cases hx
    · obtain ⟨A2b, h2, hid, hsup, hiff⟩ := updateClassHierarchy_get m1 c x A h1
      rw [hcls] at hx
      rw [hx] at h2
      obtain rfl : A2 = A2b := Option.some.inj h2
      exact ⟨A, rfl, hid, hsup, hiff⟩
  have hm1back : ∀ x A, mapGet m1 x = some A →
      (x = c.id ∧ A = c) ∨ (¬ x = c.id ∧ mapGet s.classes x = some A) := by
    intro x A hx
    by_cases hxc : x = c.id
    · subst hxc
      rw [hget1self] at hx
      exact Or.inl ⟨rfl, by injection hx; simp_all⟩
    · exact Or.inr ⟨hxc, by rw [← hget1ne x hxc]; exact hx⟩
  refine ⟨?_, ?_, ?_, ?_, ?_⟩
  · rw [hkeysF]
    rw [List.nodup_append]
    exact ⟨hinv.keysNodup, List.nodup_singleton _,
      fun x hx hx2 => hfresh ((List.mem_singleton.1 hx2) ▸ hx)⟩
  · intro a A2 hget
    obtain ⟨A, h1, hid, _, _⟩ := hback a A2 hget
    rcases hm1back a A h1 with ⟨rfl, rfl⟩ | ⟨hne, hold⟩
    · exact hid
    · exact hid.trans (hinv.keyId a A hold)
  · intro a A2 hget x hx
    obtain ⟨A, h1, _, hsup, _⟩ := hback a A2 hget
    rw [hsup] at hx
    rw [hkeysF]
    rcases hm1back a A h1 with ⟨rfl, rfl⟩ | ⟨hne, hold⟩
    · exact List.mem_append_left _ (hsups x hx)
    · exact List.mem_append_left _ (hinv.supsClosed a A hold x hx)
  · intro a A2 hget y hy
    obtain ⟨A, h1, _, _, hiff⟩ := hback a A2 hget
    rw [hkeysF]
    rcases (hiff y).1 hy with hyA | ⟨rfl, _⟩
    · rcases hm1back a A h1 with ⟨rfl, rfl⟩ | ⟨hne, hold⟩
      · rw [hsub0] at hyA
        cases hyA
      · exact List.mem_append_left _ (hinv.subsClosed a A hold y hyA)
    · exact List.mem_append_right _ (List.mem_singleton_self _)
  · intro a A2 b B2 hgetA hgetB
    obtain ⟨A, h1A, _, hsupA, hiffA⟩ := hback a A2 hgetA
    obtain ⟨B, h1B, _, hsupB, hiffB⟩ := hback b B2 hgetB
    rw [hiffA b, hsupB]
    rcases hm1back a A h1A with ⟨rfl, rfl⟩ | ⟨hanec, holdA⟩
    · -- a is the new class
      rcases hm1back b B h1B with ⟨rfl, rfl⟩ | ⟨hbnec, holdB⟩
      · -- both are the new class: both sides false
        rw [hsub0]
        constructor
        · rintro (h | ⟨_, hmem⟩)
          · cases h
          · exact absurd (hsups _ hmem) (fun hk => hfresh hk)
        · intro hmem
          exact absurd (hsups _ hmem) (fun hk => hfresh hk)
      · -- a new, b old: both sides false
        rw [hsub0]
        constructor
        · rintro (h | ⟨hbc, _⟩)
          · cases h
          · exact absurd hbc (hcidne b ((mapGet_isSome_iff_mem_keys _ b).1 (by simp [holdB])))
        · intro hmem
          exact absurd (hinv.supsClosed b B holdB _ hmem) (fun hk => hcidne _ hk rfl)
    · -- a old
      rcases hm1back b B h1B with ⟨rfl, rfl⟩ | ⟨hbnec, holdB⟩
      · -- b is the new class: both sides reduce to a ∈ c.superClasses
        constructor
        · rintro (hmem | ⟨_, hmem⟩)
          · exact absurd (hinv.subsClosed a A holdA _ hmem) (fun hk => hcidne _ hk rfl)
          · exact hmem
        · intro hmem
          exact Or.inr ⟨rfl, hmem⟩
      · -- both old
        constructor
        · rintro (hmem | ⟨hbc, _⟩)
          · exact (hinv.symm a A b B holdA holdB).1 hmem
          · exact absurd hbc (hcidne b ((mapGet_isSome_iff_mem_keys _ b).1 (by simp [holdB])))
        · intro hmem
          exact Or.inl ((hinv.symm a A b B holdA holdB).2 hmem)

theorem StoreInv_deleteClass (s : OntologyStore) (id : String)
    (hinv : StoreInv s) : StoreInv (deleteClass s id).1 := by
  rcases hcls : mapGet s.classes id with _ | cls
  · have : (deleteClass s id).1 = s := by
      unfold deleteClass
      rw [hcls]
    rw [this]
    exact hinv
  · have hidc : cls.id = id := hinv.keyId id cls hcls
    have hstep : (deleteClass s id).1.classes =
        mapDelete (removeFromHierarchy s.classes cls) id := by
      unfold deleteClass
      rw [hcls]
    -- effect of removeFromHierarchy
    have hrem : ∀ x A, mapGet s.classes x = some A →
        ∃ A2, mapGet (removeFromHierarchy s.classes cls) x = some A2 ∧
          A2.id = A.id ∧
          (∀ y, y ∈ A2.subClasses ↔ y ∈ A.subClasses ∧ ¬ (y = cls.id ∧ x ∈ cls.superClasses)) ∧
          (∀ y, y ∈ A2.superClasses ↔ y ∈ A.superClasses ∧ ¬ (y = cls.id ∧ x ∈ cls.subClasses)) := by
      intro x A hx
      obtain ⟨A1, h1, hid1, hsup1, hiff1⟩ :=
        (removeFromSupers_go cls cls.superClasses s.classes).2 x A hx
      obtain ⟨A2, h2, hid2, hsub2, hiff2⟩ :=
        (removeFromSubs_go cls cls.subClasses _).2 x A1 h1
      refine ⟨A2, h2, hid2.trans hid1, fun y => ?_, fun y => ?_⟩
      · rw [hsub2, hiff1 y]
      · rw [hiff2 y, hsup1]
    have hremKeys : mapKeys (removeFromHierarchy s.classes cls) = mapKeys s.classes := by
      unfold removeFromHierarchy
      rw [(removeFromSubs_go cls cls.subClasses _).1,
        (removeFromSupers_go cls cls.superClasses s.classes).1]
    have hkeysF : mapKeys (deleteClass s id).1.classes =
        (mapKeys s.classes).filter (fun x => ¬ x = id) := by
      rw [hstep, mapKeys_delete, hremKeys]
    have hback : ∀ x A2, mapGet (deleteClass s id).1.classes x = some A2 →
        ¬ x = id ∧ ∃ A, mapGet s.classes x = some A ∧ A2.id = A.id ∧
          (∀ y, y ∈ A2.subClasses ↔ y ∈ A.subClasses ∧ ¬ (y = cls.id ∧ x ∈ cls.superClasses)) ∧
          (∀ y, y ∈ A2.superClasses ↔ y ∈ A.superClasses ∧ ¬ (y = cls.id ∧ x ∈ cls.subClasses)) := by
      intro x A2 hx
      rw [hstep, mapGet_delete] at hx
      by_cases hxid : x = id
      · rw [if_pos hxid] at hx
        cases hx
      · rw [if_neg hxid] at hx
        refine ⟨hxid, ?_⟩
        rcases hsx : mapGet s.classes x with _ | A
        · have hmem := (mapGet_isSome_iff_mem_keys
              (removeFromHierarchy s.classes cls) x).1 (by rw [hx]; rfl)
          rw [hremKeys, ← mapGet_isSome_iff_mem_keys, hsx] at hmem
          simp at hmem
        · obtain ⟨A2b, h2, hid2, hiffsub, hiffsup⟩ := hrem x A hsx
          rw [hx] at h2
          obtain rfl : A2 = A2b := Option.some.inj h2
          exact ⟨A, rfl, hid2, hiffsub, hiffsup⟩
    refine ⟨?_, ?_, ?_, ?_, ?_⟩
    · rw [hkeysF]
      exact hinv.keysNodup.filter _
    · intro a A2 hget
      obtain ⟨hne, A, hold, hid2, _, _⟩ := hback a A2 hget
      exact hid2.trans (hinv.keyId a A hold)
    · intro a A2 hget x hx
      obtain ⟨hne, A, hold, _, _, hiffsup⟩ := hback a A2 hget
      obtain ⟨hxA, hnot⟩ := (hiffsup x).1 hx
      rw [hkeysF]
      rw [List.mem_filter]
      refine ⟨hinv.supsClosed a A hold x hxA, ?_⟩
      simp only [decide_eq_true_eq]
      intro hxid
      apply hnot
      refine ⟨by rw [hxid, hidc], ?_⟩
      -- x = id in A.superClasses forces a ∈ cls.subClasses by symmetry
      have := (hinv.symm id cls a A hcls hold).2 (by rw [← hxid]; exact hxA)
      exact this
    · intro a A2 hget y hy
      obtain ⟨hne, A, hold, _, hiffsub, _⟩ := hback a A2 hget
      obtain ⟨hyA, hnot⟩ := (hiffsub y).1 hy
      rw [hkeysF, List.mem_filter]
      refine ⟨hinv.subsClosed a A hold y hyA, ?_⟩
      simp only [decide_eq_true_eq]
      intro hyid
      apply hnot
      refine ⟨by rw [hyid, hidc], ?_⟩
      -- y = id in A.subClasses forces a ∈ cls.superClasses by symmetry
      exact (hinv.symm a A id cls hold hcls).1 (by rw [← hyid]; exact hyA)
    · intro a A2 b B2 hgetA hgetB
      obtain ⟨hnea, A, holdA, _, hiffsubA, _⟩ := hback a A2 hgetA
      obtain ⟨hneb, B, holdB, _, _, hiffsupB⟩ := hback b B2 hgetB
      rw [hiffsubA b, hiffsupB a]
      have hbne : ¬ b = cls.id := by rw [hidc]; exact hneb
      have hane : ¬ a = cls.id := by rw [hidc]; exact hnea
      constructor
      · rintro ⟨hmem, _⟩
        exact ⟨(hinv.symm a A b B holdA holdB).1 hmem, fun ⟨hc, _⟩ => hane hc⟩
      · rintro ⟨hmem, _⟩
        exact ⟨(hinv.symm a A b B holdA holdB).2 hmem, fun ⟨hc, _⟩ => hbne hc⟩

theorem StoreInv_classes_eq {s s2 : OntologyStore} (hinv : StoreInv s)
    (h : s2.classes = s.classes) : StoreInv s2 := by
  refine ⟨?_, ?_, ?_, ?_, ?_⟩ <;> rw [h]
  · exact hinv.keysNodup
  · exact hinv.keyId
  · exact hinv.supsClosed
  · exact hinv.subsClosed
  · exact hinv.symm

theorem StoreInv_applyOp (s : OntologyStore) (op : StoreOp) (hinv : StoreInv s)
    (hwf : match op with
           | StoreOp.addClass c => WellFormedAdd s c
           | _ => True) : StoreInv (applyOp s op) := by
  cases op with
  | addClass c => exact StoreInv_addClass s c hinv hwf
  | deleteClass id => exact StoreInv_deleteClass s id hinv
  | addProperty p => exact StoreInv_classes_eq hinv rfl
  | addRelationship r => exact StoreInv_classes_eq hinv rfl
  | addDomain d => exact StoreInv_classes_eq hinv rfl

theorem StoreInv_foldl (ops : List StoreOp) : ∀ s, StoreInv s → WfOps s ops →
    StoreInv (ops.foldl applyOp s) := by
  induction ops with
  | nil => exact fun s hinv _ => hinv
  | cons op rest ih =>
    intro s hinv hwf
    obtain ⟨hop, hrest⟩ := hwf
    exact ih (applyOp s op) (StoreInv_applyOp s op hinv hop) hrest

theorem StoreInv_empty : StoreInv emptyStore := by
  refine ⟨?_, ?_, ?_, ?_, ?_⟩ <;> simp [emptyStore, mapKeys, mapGet]

/-- C3 as amended: in every store state reachable from the empty store by a
well-formed operation sequence — each `addClass` uses a fresh id, an empty
`subClasses` list and super references resolving to present classes, while
`deleteClass`, `addRelationship`, `addProperty` and `addDomain` are
unrestricted — referential symmetry holds: for all present classes `A`
(under id `a`) and `B` (under id `b`), `b ∈ A.subClasses` iff
`a ∈ B.superClasses`. -/
theorem store_referential_symmetry (ops : List StoreOp)
    (hwf : WfOps emptyStore ops) (a b : String) (A B : OntologyClass)
    (hA : mapGet (runOps ops).classes a = some A)
    (hB : mapGet (runOps ops).classes b = some B) :
    b ∈ A.subClasses ↔ a ∈ B.superClasses :=
  (StoreInv_foldl ops emptyStore StoreInv_empty hwf).symm a A b B hA hB

/-- Witness for the amended C3 theorem: add `B` (no supers) then `A` with
super `B`; in the resulting store `A ∈ B.subClasses ↔ B ∈ A.superClasses`
holds with both sides true. -/
theorem store_referential_symmetry_witness :
    "A" ∈ ({ manualClass "B" [] with subClasses := ["A"] } : OntologyClass).subClasses ↔
      "B" ∈ (manualClass "A" ["B"]).superClasses :=
  store_referential_symmetry
    [StoreOp.addClass (manualClass "B" []), StoreOp.addClass (manualClass "A" ["B"])]
    ⟨⟨rfl, by decide, by decide⟩, ⟨⟨rfl, by decide, by decide⟩, trivial⟩⟩
    "B" "A" _ _ (by decide) (by decide)

/-! ### Claim C6: amended forest theorem — chain and DFS lemmas -/

theorem parentStep_iff (h : List (String × HierarchyNode)) (u v : String) :
    parentStep h u v ↔ ∃ n, mapGet h u = some n ∧ n.parent = some v := by
  unfold parentStep parentOf
  rcases hg : mapGet h u with _ | n
  · simp
  · simp

theorem setAdd_mem (s : List String) (x y : String) :
    y ∈ setAdd s x ↔ y ∈ s ∨ y = x := by
  unfold setAdd
  by_cases hx : x ∈ s
  · simp only [if_pos hx]
    constructor
    · exact fun h => Or.inl h
    · rintro (h | rfl)
      · exact h
      · exact hx
  · simp [if_neg hx]

theorem generateId_ne_empty (s : String) (h : s ≠ "") : generateId s ≠ "" := by
  intro hc
  apply h
  have hdata := congrArg String.data hc
  simp only [generateId, jsToLower] at hdata
  cases s with
  | mk l =>
    simp only [List.map_eq_nil_iff] at hdata
    simp [hdata]

theorem chain_drop (h : List (String × HierarchyNode)) (c : String) :
    ∀ (l1 : List String) (u x : String) (l2 : List String),
      isChain h u (l1 ++ x :: l2) c → isChain h x l2 c := by
  intro l1
  induction l1 with
  | nil => exact fun u x l2 hch => hch.2
  | cons b l1 ih => exact fun u x l2 hch => ih b x l2 hch.2

theorem chain_nodup_aux (h : List (String × HierarchyNode)) (c : String) :
    ∀ (n : Nat) (l : List String) (a : String), l.length ≤ n → isChain h a l c →
      ∃ l2, isChain h a l2 c ∧ (a :: l2).Nodup := by
  intro n
  induction n with
  | zero =>
    intro l a hlen hch
    obtain rfl : l = [] := List.eq_nil_of_length_eq_zero (Nat.le_zero.mp hlen)
    exact ⟨[], hch, List.nodup_singleton a⟩
  | succ n ih =>
    intro l a hlen hch
    cases l with
    | nil => exact ⟨[], hch, List.nodup_singleton a⟩
    | cons b l =>
      obtain ⟨hstep, hch2⟩ := hch
      have hlen2 : l.length ≤ n := by
        simpa [Nat.succ_le_succ_iff] using hlen
      obtain ⟨l2, hch3, hnd⟩ := ih l b hlen2 hch2
      by_cases hab : a = b
      · subst hab
        exact ⟨l2, hch3, hnd⟩
      · by_cases hal : a ∈ l2
        · obtain ⟨u, v, rfl⟩ := List.append_of_mem hal
          have hchv : isChain h a v c := chain_drop h c u b a v hch3
          have hndv : (a :: v).Nodup := by
            have hsub : (a :: v).Sublist (b :: (u ++ a :: v)) :=
              List.Sublist.cons b (List.sublist_append_right u (a :: v))
            exact hnd.sublist hsub
          exact ⟨v, hchv, hndv⟩
        · refine ⟨b :: l2, ⟨hstep, hch3⟩, ?_⟩
          rw [List.nodup_cons]
          refine ⟨?_, hnd⟩
          rw [List.mem_cons]
          rintro (hc2 | hc2)
          · exact hab hc2
          · exact hal hc2

theorem chain_nodup (h : List (String × HierarchyNode)) (a c : String)
    (l : List String) (hch : isChain h a l c) :
    ∃ l2, isChain h a l2 c ∧ (a :: l2).Nodup :=
  chain_nodup_aux h c l.length l a le_rfl hch

theorem chain_keys (h : List (String × HierarchyNode)) (c : String) :
    ∀ (l : List String) (a : String), isChain h a l c →
      ∀ x ∈ (a :: l).dropLast, x ∈ mapKeys h := by
  intro l
  induction l with
  | nil =>
    intro a _ x hx
    simp at hx
  | cons b l ih =>
    intro a hch x hx
    obtain ⟨hstep, hch2⟩ := hch
    rw [parentStep_iff] at hstep
    obtain ⟨n, hn, _⟩ := hstep
    have hd : ((a :: b :: l).dropLast) = a :: (b :: l).dropLast := rfl
    rw [hd, List.mem_cons] at hx
    rcases hx with rfl | hx
    · exact (mapGet_isSome_iff_mem_keys h x).1 (by simp [hn])
    · exact ih b hch2 x hx

theorem rtg_chain (h : List (String × HierarchyNode)) (a c : String)
    (hr : Relation.ReflTransGen (parentStep h) a c) : ∃ l, isChain h a l c := by
  induction hr using Relation.ReflTransGen.head_induction_on with
  | refl => exact ⟨[], rfl⟩
  | head hstep _ ih =>
    obtain ⟨l, hch⟩ := ih
    exact ⟨_ :: l, hstep, hch⟩

theorem nodup_subset_length {l l2 : List String} (hnd : l.Nodup)
    (hsub : ∀ x ∈ l, x ∈ l2) : l.length ≤ l2.length := by
  calc l.length = l.toFinset.card := (List.toFinset_card_of_nodup hnd).symm
    _ ≤ l2.toFinset.card := by
        apply Finset.card_le_card
        intro x hx
        rw [List.mem_toFinset] at hx ⊢
        exact hsub x hx
    _ ≤ l2.length := List.toFinset_card_le l2

theorem hasCycleDFS_of_chain (h : List (String × HierarchyNode))
    (hne : ∀ u v, parentStep h u v → v ≠ "") (c : String) :
    ∀ (l : List String) (fuel : Nat) (a : String) (visited : List String),
      isChain h a l c → (a :: l).Nodup → (∀ x ∈ a :: l, x ∉ visited) →
      l.length < fuel → hasCycleDFS h fuel a c visited = true := by
  intro l
  induction l with
  | nil =>
    intro fuel a visited hch _ _ hfuel
    obtain rfl : a = c := hch
    obtain ⟨f, rfl⟩ : ∃ f, fuel = f + 1 := ⟨fuel - 1, by omega⟩
    simp [hasCycleDFS]
  | cons b l ih =>
    intro fuel a visited hch hnd hvis hfuel
    obtain ⟨hstep, hch2⟩ := hch
    obtain ⟨f, rfl⟩ : ∃ f, fuel = f + 1 := ⟨fuel - 1, by omega⟩
    have hstep2 := hstep
    rw [parentStep_iff] at hstep2
    obtain ⟨n, hn, hp⟩ := hstep2
    by_cases hac : a = c
    · simp [hasCycleDFS, hac]
    · have hcont : visited.contains a = false := by
        simpa using hvis a (List.mem_cons_self a (b :: l))
      have hbne : b ≠ "" := hne a b hstep
      have hrec : hasCycleDFS h f b c (setAdd visited a) = true := by
        apply ih f b (setAdd visited a) hch2 (List.Nodup.of_cons hnd)
        · intro x hx
          rw [setAdd_mem]
          rintro (hxv | rfl)
          · exact hvis x (List.mem_cons_of_mem a hx) hxv
          · exact (List.nodup_cons.1 hnd).1 hx
        · have : (b :: l).length ≤ f := by
            simpa [Nat.succ_le_succ_iff] using hfuel
          simpa using Nat.lt_of_lt_of_le (Nat.lt_succ_self l.length) this
      simp only [hasCycleDFS, if_neg hac, hcont, Bool.false_eq_true, if_neg, hn,
        if_false]
      rw [hp]
      simp only [ne_eq]
      rw [if_pos hbne]
      exact hrec

theorem wouldCreateCycle_complete (h : List (String × HierarchyNode))
    (hne : ∀ u v, parentStep h u v → v ≠ "") (pid cid : String)
    (hr : Relation.ReflTransGen (parentStep h) pid cid) :
    wouldCreateCycle h pid cid = true := by
  obtain ⟨l0, hch0⟩ := rtg_chain h pid cid hr
  obtain ⟨l, hch, hnd⟩ := chain_nodup h pid cid l0 hch0
  have hkeys := chain_keys h cid l pid hch
  have hndrop : ((pid :: l).dropLast).Nodup := hnd.sublist (List.dropLast_sublist _)
  have hlen : ((pid :: l).dropLast).length ≤ (mapKeys h).length :=
    nodup_subset_length hndrop hkeys
  have hlen2 : l.length ≤ h.length := by
    have h1 : ((pid :: l).dropLast).length = l.length := by
      simp [List.length_dropLast]
    have h2 : (mapKeys h).length = h.length := List.length_map _ _
    omega
  unfold wouldCreateCycle
  exact hasCycleDFS_of_chain h hne cid l (h.length + 1) pid [] hch hnd
    (by intro x _ hx; simp at hx) (by omega)

theorem rtg_split {R1 R2 : String → String → Prop} {c d : String}
    (hR : ∀ u v, R2 u v ↔ (u = c ∧ v = d) ∨ (¬ u = c ∧ R1 u v)) :
    ∀ u v, Relation.ReflTransGen R2 u v →
      Relation.ReflTransGen R1 u v ∨
        (Relation.ReflTransGen R1 u c ∧ Relation.ReflTransGen R1 d v) := by
  intro u v hr
  induction hr using Relation.ReflTransGen.head_induction_on with
  | refl => exact Or.inl Relation.ReflTransGen.refl
  | head hstep htail ih =>
    rename_i a b
    by_cases hac : a = c
    · subst hac
      obtain rfl : b = d := by
        rcases (hR _ _).1 hstep with ⟨_, rfl⟩ | ⟨hne, _⟩
        · rfl
        · exact absurd rfl hne
      rcases ih with hdv | ⟨_, hdv⟩
      · exact Or.inr ⟨Relation.ReflTransGen.refl, hdv⟩
      · exact Or.inr ⟨Relation.ReflTransGen.refl, hdv⟩
    · have hstep1 : R1 a b := by
        rcases (hR _ _).1 hstep with ⟨hc, _⟩ | ⟨_, h1⟩
        · exact absurd hc hac
        · exact h1
      rcases ih with hbv | ⟨hbc, hdv⟩
      · exact Or.inl (Relation.ReflTransGen.head hstep1 hbv)
      · exact Or.inr ⟨Relation.ReflTransGen.head hstep1 hbc, hdv⟩

theorem HInv_parentNe {st : HierarchyState} (hinv : HInv st) :
    ∀ u v, parentStep st.hierarchy u v → v ≠ "" := by
  intro u v hstep
  rw [parentStep_iff] at hstep
  obtain ⟨n, hn, hpv⟩ := hstep
  exact hinv.idsNonempty v (hinv.parentKeys u n v hn hpv)

theorem HInv_update (h : List (String × HierarchyNode)) (r r2 : List String)
    (pid cid : String) (parent child child2 parent2 : HierarchyNode)
    (hinv : HInv ⟨h, r⟩)
    (hp : mapGet h pid = some parent) (hc : mapGet h cid = some child)
    (hchildpar : child.parent = none)
    (hnopath : ¬ Relation.ReflTransGen (parentStep h) pid cid)
    (hpidcid : ¬ pid = cid)
    (hc2p : child2.parent = some pid) (hc2c : child2.children = child.children)
    (hp2p : parent2.parent = parent.parent)
    (hp2c : parent2.children = parent.children ++ [cid]) :
    HInv ⟨mapSet (mapSet h cid child2) pid parent2, r2⟩ := by
  have hpidk : pid ∈ mapKeys h := (mapGet_isSome_iff_mem_keys h pid).1 (by simp [hp])
  have hcidk : cid ∈ mapKeys h := (mapGet_isSome_iff_mem_keys h cid).1 (by simp [hc])
  have h1keys : mapKeys (mapSet h cid child2) = mapKeys h := by
    rw [mapKeys_set, if_pos hcidk]
  have hkeys2 : mapKeys (mapSet (mapSet h cid child2) pid parent2) = mapKeys h := by
    rw [mapKeys_set, h1keys, if_pos hpidk]
  have hget2 : ∀ x, mapGet (mapSet (mapSet h cid child2) pid parent2) x =
      if x = pid then some parent2 else if x = cid then some child2 else mapGet h x := by
    intro x
    by_cases hxp : x = pid
    · obtain rfl := hxp.symm
      rw [mapGet_set_self, if_pos rfl]
    · rw [mapGet_set_ne _ pid x parent2 hxp, if_neg hxp]
      by_cases hxc : x = cid
      · obtain rfl := hxc.symm
        rw [mapGet_set_self, if_pos rfl]
      · rw [mapGet_set_ne _ cid x child2 hxc, if_neg hxc]
  have holdp : ∀ X, (∃ m, mapGet h pid = some m ∧ m.parent = some X) ↔
      parent.parent = some X := by
    intro X
    constructor
    · rintro ⟨m, hm, hm2⟩
      rw [hp] at hm
      obtain rfl := Option.some.inj hm
      exact hm2
    · intro h2
      exact ⟨parent, hp, h2⟩
  have hrhs : ∀ x cc,
      ((∃ m, mapGet (mapSet (mapSet h cid child2) pid parent2) cc = some m ∧
          m.parent = some x) ↔
        (if cc = pid then parent.parent = some x else if cc = cid then pid = x
          else ∃ m, mapGet h cc = some m ∧ m.parent = some x)) := by
    intro x cc
    rw [hget2 cc]
    by_cases hcp : cc = pid
    · rw [if_pos hcp, if_pos hcp]
      constructor
      · rintro ⟨m, hm, hm2⟩
        obtain rfl := Option.some.inj hm
        rw [hp2p] at hm2
        exact hm2
      · intro h2
        exact ⟨parent2, rfl, by rw [hp2p]; exact h2⟩
    · rw [if_neg hcp, if_neg hcp]
      by_cases hcc : cc = cid
      · rw [if_pos hcc, if_pos hcc]
        constructor
        · rintro ⟨m, hm, hm2⟩
          obtain rfl := Option.some.inj hm
          rw [hc2p] at hm2
          exact Option.some.inj hm2
        · intro h2
          exact ⟨child2, rfl, by rw [hc2p, h2]⟩
      · rw [if_neg hcc, if_neg hcc]
  have hstepIff : ∀ u v,
      parentStep (mapSet (mapSet h cid child2) pid parent2) u v ↔
        ((u = cid ∧ v = pid) ∨ (¬ u = cid ∧ parentStep h u v)) := by
    intro u v
    rw [parentStep_iff, hrhs v u]
    by_cases huc : u = cid
    · obtain rfl := huc.symm
      rw [if_neg (fun h2 => hpidcid h2.symm), if_pos rfl]
      constructor
      · intro h2
        exact Or.inl ⟨rfl, h2.symm⟩
      · rintro (⟨_, rfl⟩ | ⟨hne, _⟩)
        · rfl
        · exact absurd rfl hne
    · by_cases hup : u = pid
      · obtain rfl := hup.symm
        rw [if_pos rfl]
        constructor
        · intro h2
          exact Or.inr ⟨huc, (parentStep_iff h pid v).2 ⟨parent, hp, h2⟩⟩
        · rintro (⟨hcc, _⟩ | ⟨_, hstepv⟩)
          · exact absurd hcc huc
          · exact (holdp v).1 ((parentStep_iff h pid v).1 hstepv)
      · rw [if_neg hup, if_neg huc]
        constructor
        · intro h2
          exact Or.inr ⟨huc, (parentStep_iff h u v).2 h2⟩
        · rintro (⟨hcc, _⟩ | ⟨_, hstepv⟩)
          · exact absurd hcc huc
          · exact (parentStep_iff h u v).1 hstepv
  refine ⟨?_, ?_, ?_, ?_⟩
  · intro x hx
    rw [hkeys2] at hx
    exact hinv.idsNonempty x hx
  · intro x n q hxn hnq
    have hxn2 : (if x = pid then some parent2 else if x = cid then some child2
        else mapGet h x) = some n := by
      rw [← hget2 x]
      exact hxn
    rw [hkeys2]
    by_cases hxp : x = pid
    · rw [if_pos hxp] at hxn2
      obtain rfl := Option.some.inj hxn2
      rw [hp2p] at hnq
      exact hinv.parentKeys pid parent q hp hnq
    · rw [if_neg hxp] at hxn2
      by_cases hxc : x = cid
      · rw [if_pos hxc] at hxn2
        obtain rfl := Option.some.inj hxn2
        rw [hc2p] at hnq
        obtain rfl := Option.some.inj hnq
        exact hpidk
      · rw [if_neg hxc] at hxn2
        exact hinv.parentKeys x n q hxn2 hnq
  · intro x n hxn cc
    have hxn2 : (if x = pid then some parent2 else if x = cid then some child2
        else mapGet h x) = some n := by
      rw [← hget2 x]
      exact hxn
    rw [hrhs x cc]
    by_cases hxp : x = pid
    · obtain rfl := hxp.symm
      rw [if_pos rfl] at hxn2
      obtain rfl := Option.some.inj hxn2
      rw [hp2c, List.mem_append, List.mem_singleton]
      have hold := hinv.childrenIff pid parent hp cc
      by_cases hcp : cc = pid
      · obtain rfl := hcp.symm
        rw [if_pos rfl, hold, holdp pid]
        constructor
        · rintro (h2 | h2)
          · exact h2
          · exact absurd h2 hpidcid
        · intro h2
          exact Or.inl h2
      · by_cases hcc : cc = cid
        · obtain rfl := hcc.symm
          rw [if_neg hcp, if_pos rfl]
          constructor
          · intro _
            rfl
          · intro _
            exact Or.inr rfl
        · rw [if_neg hcp, if_neg hcc, hold]
          constructor
          · rintro (h2 | h2)
            · exact h2
            · exact absurd h2 hcc
          · intro h2
            exact Or.inl h2
    · by_cases hxc : x = cid
      · obtain rfl := hxc.symm
        rw [if_neg hxp, if_pos rfl] at hxn2
        obtain rfl := Option.some.inj hxn2
        rw [hc2c]
        have hold := hinv.childrenIff cid child hc cc
        by_cases hcp : cc = pid
        · obtain rfl := hcp.symm
          rw [if_pos rfl, hold]
          exact holdp cid
        · by_cases hcc : cc = cid
          · obtain rfl := hcc.symm
            rw [if_neg hcp, if_pos rfl, hold]
            constructor
            · rintro ⟨m, hm, hm2⟩
              rw [hc] at hm
              obtain rfl := Option.some.inj hm
              rw [hchildpar] at hm2
              exact Option.noConfusion hm2
            · intro h2
              exact absurd h2 hpidcid
          · rw [if_neg hcp, if_neg hcc]
            exact hold
      · rw [if_neg hxp, if_neg hxc] at hxn2
        have hold := hinv.childrenIff x n hxn2 cc
        by_cases hcp : cc = pid
        · obtain rfl := hcp.symm
          rw [if_pos rfl, hold]
          exact holdp x
        · by_cases hcc : cc = cid
          · obtain rfl := hcc.symm
            rw [if_neg hcp, if_pos rfl, hold]
            constructor
            · rintro ⟨m, hm, hm2⟩
              rw [hc] at hm
              obtain rfl := Option.some.inj hm
              rw [hchildpar] at hm2
              exact Option.noConfusion hm2
            · intro h2
              exact absurd h2.symm hxp
          · rw [if_neg hcp, if_neg hcc]
            exact hold
  · intro x hx
    rw [Relation.TransGen.head'_iff] at hx
    obtain ⟨y, hstep, hrest⟩ := hx
    rw [hstepIff] at hstep
    by_cases hxc : x = cid
    · obtain rfl := hxc.symm
      obtain rfl : pid = y := by
        rcases hstep with ⟨_, h2⟩ | ⟨hne, _⟩
        · exact h2.symm
        · exact absurd rfl hne
      rcases rtg_split hstepIff pid cid hrest with h2 | ⟨h2, _⟩
      · exact hnopath h2
      · exact hnopath h2
    · have hstep1 : parentStep h x y := by
        rcases hstep with ⟨hcc, _⟩ | ⟨_, h2⟩
        · exact absurd hcc hxc
        · exact h2
      rcases rtg_split hstepIff y x hrest with h2 | ⟨h2, h3⟩
      · exact hinv.acyclic x (Relation.TransGen.head' hstep1 h2)
      · exact hnopath (h3.trans (Relation.ReflTransGen.head hstep1 h2))

theorem wouldCreateCycle_self (h : List (String × HierarchyNode)) (x : String) :
    wouldCreateCycle h x x = true := by
  simp [wouldCreateCycle, hasCycleDFS]

theorem HInv_addParentChild (st : HierarchyState) (pid cid : String) (conf : ℚ)
    (hinv : HInv st) : HInv (addParentChildRelationship st pid cid conf) := by
  unfold addParentChildRelationship
  rcases hp : mapGet st.hierarchy pid with _ | parent
  · rcases hc : mapGet st.hierarchy cid with _ | child
    · exact hinv
    · exact hinv
  · rcases hc : mapGet st.hierarchy cid with _ | child
    · exact hinv
    · dsimp only
      by_cases hpt : parentTruthy child.parent = true
      · rw [if_pos hpt]
        exact hinv
      · rw [if_neg hpt]
        by_cases hwc : wouldCreateCycle st.hierarchy pid cid = true
        · rw [if_pos hwc]
          exact hinv
        · rw [if_neg hwc]
          have hpidcid : ¬ pid = cid := by
            intro h2
            rw [h2, wouldCreateCycle_self] at hwc
            exact hwc rfl
          have hchildpar : child.parent = none := by
            rcases hcp : child.parent with _ | q
            · rfl
            · exfalso
              apply hpt
              have hq : q ∈ mapKeys st.hierarchy :=
                hinv.parentKeys cid child q hc hcp
              have hqne : q ≠ "" := hinv.idsNonempty q hq
              rw [hcp]
              simp [parentTruthy, hqne]
          have hnopath : ¬ Relation.ReflTransGen (parentStep st.hierarchy) pid cid := by
            intro hr
            exact hwc (wouldCreateCycle_complete st.hierarchy (HInv_parentNe hinv) pid cid hr)
          exact HInv_update st.hierarchy st.rootNodes _ pid cid parent child _ _
            hinv hp hc hchildpar hnopath hpidcid rfl rfl rfl rfl

theorem addParentChild_reject (st : HierarchyState) (pid cid : String) (conf : ℚ)
    (hinv : HInv st)
    (hr : Relation.ReflTransGen (parentStep st.hierarchy) pid cid) :
    addParentChildRelationship st pid cid conf = st := by
  unfold addParentChildRelationship
  rcases hp : mapGet st.hierarchy pid with _ | parent
  · rfl
  · rcases hc : mapGet st.hierarchy cid with _ | child
    · rfl
    · dsimp only
      by_cases hpt : parentTruthy child.parent = true
      · rw [if_pos hpt]
      · rw [if_neg hpt]
        rw [if_pos (wouldCreateCycle_complete st.hierarchy (HInv_parentNe hinv) pid cid hr)]

theorem HInv_of_flat (st : HierarchyState)
    (hk : ∀ x ∈ mapKeys st.hierarchy, x ≠ "")
    (hf : ∀ x n, mapGet st.hierarchy x = some n → n.parent = none ∧ n.children = []) :
    HInv st := by
  have hnostep : ∀ u v, ¬ parentStep st.hierarchy u v := by
    intro u v hstep
    rw [parentStep_iff] at hstep
    obtain ⟨n, hn, hpv⟩ := hstep
    rw [(hf u n hn).1] at hpv
    exact Option.noConfusion hpv
  refine ⟨hk, ?_, ?_, ?_⟩
  · intro x n p hxn hnp
    rw [(hf x n hxn).1] at hnp
    exact Option.noConfusion hnp
  · intro x n hxn c
    rw [(hf x n hxn).2]
    constructor
    · intro h2
      simp at h2
    · rintro ⟨m, hm, hm2⟩
      rw [(hf c m hm).1] at hm2
      exact Option.noConfusion hm2
  · intro x hx
    cases hx with
    | single h2 => exact hnostep _ _ h2
    | tail _ h2 => exact hnostep _ _ h2

theorem HInv_insert_flat (st : HierarchyState) (t : String) (node : HierarchyNode)
    (r2 : List String) (hinv : HInv st) (ht : t ≠ "")
    (hfresh : ¬ t ∈ mapKeys st.hierarchy)
    (hpar : node.parent = none) (hch : node.children = []) :
    HInv ⟨mapSet st.hierarchy t node, r2⟩ := by
  have hget : ∀ x, mapGet (mapSet st.hierarchy t node) x =
      if x = t then some node else mapGet st.hierarchy x := by
    intro x
    by_cases hxt : x = t
    · obtain rfl := hxt.symm
      rw [mapGet_set_self, if_pos rfl]
    · rw [mapGet_set_ne _ t x node hxt, if_neg hxt]
  have hkeys : mapKeys (mapSet st.hierarchy t node) = mapKeys st.hierarchy ++ [t] := by
    rw [mapKeys_set, if_neg hfresh]
  have hgett : mapGet st.hierarchy t = none :=
    mapGet_eq_none_of_not_mem_keys hfresh
  refine ⟨?_, ?_, ?_, ?_⟩
  · intro x hx
    rw [hkeys, List.mem_append, List.mem_singleton] at hx
    rcases hx with hx | rfl
    · exact hinv.idsNonempty x hx
    · exact ht
  · intro x n p hxn hnp
    have hxn2 : (if x = t then some node else mapGet st.hierarchy x) = some n := by
      rw [← hget x]
      exact hxn
    rw [hkeys, List.mem_append]
    by_cases hxt : x = t
    · rw [if_pos hxt] at hxn2
      obtain rfl := Option.some.inj hxn2
      rw [hpar] at hnp
      exact Option.noConfusion hnp
    · rw [if_neg hxt] at hxn2
      exact Or.inl (hinv.parentKeys x n p hxn2 hnp)
  · intro x n hxn c
    have hxn2 : (if x = t then some node else mapGet st.hierarchy x) = some n := by
      rw [← hget x]
      exact hxn
    have hrhs : (∃ m, mapGet (mapSet st.hierarchy t node) c = some m ∧
        m.parent = some x) ↔
        (if c = t then False else ∃ m, mapGet st.hierarchy c = some m ∧
          m.parent = some x) := by
      rw [hget c]
      by_cases hct : c = t
      · rw [if_pos hct, if_pos hct]
        constructor
        · rintro ⟨m, hm, hm2⟩
          obtain rfl := Option.some.inj hm
          rw [hpar] at hm2
          exact Option.noConfusion hm2
        · intro h2
          exact h2.elim
      · rw [if_neg hct, if_neg hct]
    rw [hrhs]
    by_cases hxt : x = t
    · obtain rfl := hxt.symm
      rw [if_pos rfl] at hxn2
      obtain rfl := Option.some.inj hxn2
      rw [hch]
      by_cases hct : c = t
      · rw [if_pos hct]
        simp
      · rw [if_neg hct]
        constructor
        · intro h2
          simp at h2
        · rintro ⟨m, hm, hm2⟩
          exact absurd (hinv.parentKeys c m t hm hm2) hfresh
    · rw [if_neg hxt] at hxn2
      have hold := hinv.childrenIff x n hxn2 c
      by_cases hct : c = t
      · obtain rfl := hct.symm
        rw [if_pos rfl, hold]
        constructor
        · rintro ⟨m, hm, _⟩
          rw [hgett] at hm
          exact Option.noConfusion hm
        · intro h2
          exact h2.elim
      · rw [if_neg hct]
        exact hold
  · have hmono : ∀ u v, parentStep (mapSet st.hierarchy t node) u v →
        parentStep st.hierarchy u v := by
      intro u v hstep
      rw [parentStep_iff] at hstep
      obtain ⟨n, hn, hnp⟩ := hstep
      rw [hget u] at hn
      by_cases hut : u = t
      · rw [if_pos hut] at hn
        obtain rfl := Option.some.inj hn
        rw [hpar] at hnp
        exact Option.noConfusion hnp
      · rw [if_neg hut] at hn
        exact (parentStep_iff _ u v).2 ⟨n, hn, hnp⟩
    intro x hx
    exact hinv.acyclic x (Relation.TransGen.mono hmono hx)

theorem HInv_foldl {β : Type} (f : HierarchyState → β → HierarchyState)
    (hf : ∀ st x, HInv st → HInv (f st x)) :
    ∀ (l : List β) (st : HierarchyState), HInv st → HInv (l.foldl f st) := by
  intro l
  induction l with
  | nil => exact fun st h => h
  | cons b rest ih => exact fun st h => ih (f st b) (hf st b h)

theorem flat_state_set (st : HierarchyState) (k : String) (node : HierarchyNode)
    (h1 : ∀ x ∈ mapKeys st.hierarchy, x ≠ "")
    (h2 : ∀ x n, mapGet st.hierarchy x = some n → n.parent = none ∧ n.children = [])
    (hk : k ≠ "") (hpar : node.parent = none) (hch : node.children = []) :
    (∀ x ∈ mapKeys (mapSet st.hierarchy k node), x ≠ "") ∧
    (∀ x n, mapGet (mapSet st.hierarchy k node) x = some n →
      n.parent = none ∧ n.children = []) := by
  constructor
  · intro x hx
    rw [mapKeys_set] at hx
    by_cases hmem : k ∈ mapKeys st.hierarchy
    · rw [if_pos hmem] at hx
      exact h1 x hx
    · rw [if_neg hmem] at hx
      rw [List.mem_append, List.mem_singleton] at hx
      rcases hx with hx | rfl
      · exact h1 x hx
      · exact hk
  · intro x n hxn
    by_cases hxk : x = k
    · obtain rfl := hxk.symm
      rw [mapGet_set_self] at hxn
      obtain rfl := Option.some.inj hxn
      exact ⟨hpar, hch⟩
    · rw [mapGet_set_ne _ k x node hxk] at hxn
      exact h2 x n hxn

theorem initializeNodes_go :
    ∀ (concepts : List ExtractedConcept) (st : HierarchyState),
      (∀ c ∈ concepts, c.name ≠ "") →
      (∀ x ∈ mapKeys st.hierarchy, x ≠ "") →
      (∀ x n, mapGet st.hierarchy x = some n → n.parent = none ∧ n.children = []) →
      (∀ x ∈ mapKeys (concepts.foldl
        (fun st c =>
          let node : HierarchyNode :=
            { id := generateId c.name, name := c.name, level := 0, children := [],
              parent := none, confidence := c.confidence, evidence := c.contexts,
              properties := inferProperties c.type }
          { hierarchy := mapSet st.hierarchy node.id node,
            rootNodes := setAdd st.rootNodes node.id }) st).hierarchy, x ≠ "") ∧
      (∀ x n, mapGet (concepts.foldl
        (fun st c =>
          let node : HierarchyNode :=
            { id := generateId c.name, name := c.name, level := 0, children := [],
              parent := none, confidence := c.confidence, evidence := c.contexts,
              properties := inferProperties c.type }
          { hierarchy := mapSet st.hierarchy node.id node,
            rootNodes := setAdd st.rootNodes node.id }) st).hierarchy x = some n →
        n.parent = none ∧ n.children = []) := by
  intro concepts
  induction concepts with
  | nil => exact fun st _ h1 h2 => ⟨h1, h2⟩
  | cons c rest ih =>
    intro st hnames h1 h2
    rw [List.foldl_cons]
    apply ih
    · intro c2 hc2
      exact hnames c2 (List.mem_cons_of_mem c hc2)
    · exact (flat_state_set st (generateId c.name) _ h1 h2
        (generateId_ne_empty c.name (hnames c (List.mem_cons_self c rest))) rfl rfl).1
    · exact (flat_state_set st (generateId c.name) _ h1 h2
        (generateId_ne_empty c.name (hnames c (List.mem_cons_self c rest))) rfl rfl).2

theorem HInv_initializeNodes (concepts : List ExtractedConcept)
    (hnames : ∀ c ∈ concepts, c.name ≠ "") : HInv (initializeNodes concepts) := by
  have hflat := initializeNodes_go concepts ⟨[], []⟩ hnames
    (by intro x hx; simp [mapKeys] at hx)
    (by intro x n hxn; simp [mapGet] at hxn)
  exact HInv_of_flat _ hflat.1 hflat.2

theorem HInv_buildIsA (st : HierarchyState) (rels : List ExtractedRelationship)
    (hinv : HInv st) : HInv (buildIsARelationships st rels) := by
  unfold buildIsARelationships
  apply HInv_foldl _ ?_ _ st hinv
  intro st2 rel h2
  dsimp only
  split
  · exact HInv_addParentChild _ _ _ _ h2
  · exact h2

theorem HInv_createTypeHierarchy (st : HierarchyState) (k : CKind)
    (concepts : List ExtractedConcept) (hinv : HInv st) :
    HInv (createTypeHierarchy st k concepts) := by
  unfold createTypeHierarchy
  dsimp only
  apply HInv_foldl _ ?_ _ _ ?_
  · intro st2 p h2
    apply HInv_foldl _ ?_ _ _ h2
    intro st3 concept h3
    dsimp only
    repeat' split
    all_goals first
      | exact h3
      | exact HInv_addParentChild _ _ _ _ h3
  · by_cases hmh : mapHas st.hierarchy (generateId (ckindStr k)) = true
    · rw [if_pos hmh]
      exact hinv
    · rw [if_neg hmh]
      apply HInv_insert_flat st _ _ _ hinv ?_ ?_ rfl rfl
      · cases k <;> decide
      · intro hmem
        apply hmh
        rw [mapHas_eq_isSome, mapGet_isSome_iff_mem_keys]
        exact hmem

theorem HInv_inferLinguistic (st : HierarchyState) (concepts : List ExtractedConcept)
    (hinv : HInv st) : HInv (inferLinguisticHierarchies st concepts) := by
  unfold inferLinguisticHierarchies
  apply HInv_foldl _ ?_ _ st hinv
  intro st2 concept h2
  dsimp only
  split
  · apply HInv_foldl _ ?_ _ _ h2
    intro st3 pp h3
    dsimp only
    repeat' split
    all_goals first
      | exact h3
      | exact HInv_addParentChild _ _ _ _ h3
  · exact h2

theorem HInv_inferMissing (st : HierarchyState) (concepts : List ExtractedConcept)
    (hinv : HInv st) : HInv (inferMissingHierarchy st concepts) := by
  unfold inferMissingHierarchy
  dsimp only
  apply HInv_inferLinguistic
  apply HInv_foldl _ ?_ _ st hinv
  intro st2 p h2
  exact HInv_createTypeHierarchy st2 p.1 p.2 h2

theorem sameShape_refl (h : List (String × HierarchyNode)) : sameShape h h :=
  ⟨rfl, fun _ n2 hx => ⟨n2, hx, rfl, rfl⟩⟩

theorem sameShape_trans {a b c : List (String × HierarchyNode)}
    (hab : sameShape a b) (hbc : sameShape b c) : sameShape a c := by
  refine ⟨hbc.1.trans hab.1, ?_⟩
  intro x n2 hx
  obtain ⟨m, hm, e1, e2⟩ := hbc.2 x n2 hx
  obtain ⟨n, hn, f1, f2⟩ := hab.2 x m hm
  exact ⟨n, hn, e1.trans f1, e2.trans f2⟩

theorem sameShape_set (h : List (String × HierarchyNode)) (k : String)
    (node node2 : HierarchyNode) (hk : mapGet h k = some node)
    (hp : node2.parent = node.parent) (hc : node2.children = node.children) :
    sameShape h (mapSet h k node2) := by
  refine ⟨?_, ?_⟩
  · rw [mapKeys_set,
      if_pos ((mapGet_isSome_iff_mem_keys h k).1 (by simp [hk]))]
  · intro x n2 hx
    by_cases hxk : x = k
    · obtain rfl := hxk.symm
      rw [mapGet_set_self] at hx
      obtain rfl := Option.some.inj hx
      exact ⟨node, hk, hp, hc⟩
    · rw [mapGet_set_ne _ k x node2 hxk] at hx
      exact ⟨n2, hx, rfl, rfl⟩

theorem sameShape_foldl {β : Type}
    (f : List (String × HierarchyNode) → β → List (String × HierarchyNode))
    (hf : ∀ h c, sameShape h (f h c)) :
    ∀ (l : List β) (h : List (String × HierarchyNode)),
      sameShape h (List.foldl f h l) := by
  intro l
  induction l with
  | nil => exact fun h => sameShape_refl h
  | cons c rest ih =>
    intro h
    rw [List.foldl_cons]
    exact sameShape_trans (hf h c) (ih (f h c))

theorem calcNodeLevel_shape :
    ∀ (fuel : Nat) (h : List (String × HierarchyNode)) (nodeId : String) (level : Nat),
      sameShape h (calculateNodeLevel fuel h nodeId level) := by
  intro fuel
  induction fuel with
  | zero =>
    intro h nodeId level
    exact sameShape_refl h
  | succ f ih =>
    intro h nodeId level
    rw [calculateNodeLevel]
    rcases hg : mapGet h nodeId with _ | node
    · exact sameShape_refl h
    · dsimp only
      exact sameShape_trans
        (sameShape_set h nodeId node { node with level := level } hg rfl rfl)
        (sameShape_foldl _ (fun h2 c => ih h2 c (level + 1)) node.children
          (mapSet h nodeId { node with level := level }))

theorem calculateLevels_shape (st : HierarchyState) :
    sameShape st.hierarchy (calculateLevels st) := by
  unfold calculateLevels
  exact sameShape_foldl _ (fun h r => calcNodeLevel_shape (h.length + 1) h r 0)
    st.rootNodes st.hierarchy

theorem HInv_sameShape (st : HierarchyState) (h2 : List (String × HierarchyNode))
    (r2 : List String) (hinv : HInv st) (hs : sameShape st.hierarchy h2) :
    HInv ⟨h2, r2⟩ := by
  obtain ⟨hkeys, hfwd⟩ := hs
  have hback : ∀ x n, mapGet st.hierarchy x = some n →
      ∃ n2, mapGet h2 x = some n2 ∧ n2.parent = n.parent ∧
        n2.children = n.children := by
    intro x n hx
    have hmem : x ∈ mapKeys h2 := by
      rw [hkeys]
      exact (mapGet_isSome_iff_mem_keys _ x).1 (by simp [hx])
    rcases hg : mapGet h2 x with _ | n2
    · rw [← mapGet_isSome_iff_mem_keys, hg] at hmem
      simp at hmem
    · obtain ⟨n3, hn3, e1, e2⟩ := hfwd x n2 hg
      rw [hx] at hn3
      obtain rfl := Option.some.inj hn3
      exact ⟨n2, rfl, e1, e2⟩
  refine ⟨?_, ?_, ?_, ?_⟩
  · intro x hx
    rw [hkeys] at hx
    exact hinv.idsNonempty x hx
  · intro x n p hxn hnp
    obtain ⟨m, hm, e1, _⟩ := hfwd x n hxn
    rw [hkeys]
    exact hinv.parentKeys x m p hm (by rw [← e1]; exact hnp)
  · intro x n hxn c
    obtain ⟨m, hm, e1, e2⟩ := hfwd x n hxn
    rw [e2, hinv.childrenIff x m hm c]
    constructor
    · rintro ⟨mm, hmm, hmmp⟩
      obtain ⟨n2, hn2, f1, _⟩ := hback c mm hmm
      exact ⟨n2, hn2, by rw [f1]; exact hmmp⟩
    · rintro ⟨n2, hn2, hn2p⟩
      obtain ⟨mm, hmm, f1, _⟩ := hfwd c n2 hn2
      exact ⟨mm, hmm, by rw [← f1]; exact hn2p⟩
  · intro x hx
    apply hinv.acyclic x
    apply Relation.TransGen.mono ?_ hx
    intro a b hs2
    rw [parentStep_iff] at hs2
    obtain ⟨n2, hn2, e1⟩ := hs2
    obtain ⟨n, hn, f1, _⟩ := hfwd a n2 hn2
    rw [parentStep_iff]
    exact ⟨n, hn, by rw [← f1]; exact e1⟩

theorem HInv_buildHierarchyState (concepts : List ExtractedConcept)
    (relationships : List ExtractedRelationship)
    (hnames : ∀ c ∈ concepts, c.name ≠ "") :
    HInv (buildHierarchyState concepts relationships) := by
  unfold buildHierarchyState
  dsimp only
  apply HInv_sameShape
  · exact HInv_inferMissing _ concepts
      (HInv_buildIsA _ relationships (HInv_initializeNodes concepts hnames))
  · exact calculateLevels_shape _

/-- C6 as amended: when every concept has a nonempty name — so every
generated node id is nonempty and the JS truthiness tests on the `parent`
field behave as presence tests — `buildHierarchy` produces a forest: the
`children` lists are exactly the inverse of the `parent` pointers, the
parent-pointer relation has no directed cycle, and a candidate parent/child
edge whose child already lies on the candidate parent's ancestor chain is
rejected, leaving the state unchanged. -/
theorem buildHierarchy_forest (concepts : List ExtractedConcept)
    (relationships : List ExtractedRelationship)
    (hnames : ∀ c ∈ concepts, c.name ≠ "") :
    (∀ x n, mapGet (buildHierarchyState concepts relationships).hierarchy x = some n →
      ∀ c, (c ∈ n.children ↔
        ∃ m, mapGet (buildHierarchyState concepts relationships).hierarchy c = some m ∧
          m.parent = some x)) ∧
    (∀ x, ¬ Relation.TransGen
      (parentStep (buildHierarchyState concepts relationships).hierarchy) x x) ∧
    (∀ pid cid conf,
      Relation.ReflTransGen
          (parentStep (buildHierarchyState concepts relationships).hierarchy) pid cid →
        addParentChildRelationship (buildHierarchyState concepts relationships)
          pid cid conf = buildHierarchyState concepts relationships) := by
  have hinv := HInv_buildHierarchyState concepts relationships hnames
  exact ⟨hinv.childrenIff, hinv.acyclic,
    fun pid cid conf hr => addParentChild_reject _ pid cid conf hinv hr⟩

/-- Witness for the amended C6 theorem: on the two-concept corpus
`a`, `z` with the is-a relationship `a is-a z`, the candidate edge making
`z` its own parent closes a trivial ancestor loop and is rejected
unchanged. -/
theorem buildHierarchy_forest_witness :
    addParentChildRelationship (buildHierarchyState [conceptA, conceptZ] [isaRel "a" "z"])
        "z" "z" (1/2) =
      buildHierarchyState [conceptA, conceptZ] [isaRel "a" "z"] :=
  (buildHierarchy_forest [conceptA, conceptZ] [isaRel "a" "z"] (by decide)).2.2
    "z" "z" (1/2) Relation.ReflTransGen.refl

end TiddlerKB
